import Mathlib

/-!
# Verification of the Derecho view-management (GMS) core

This file gives a shallow embedding, in Lean 4, of the group-membership
(GMS) and ragged-edge-cleanup logic of `derecho/view_manager.cpp`, and
proves or refutes the specification claims about it.

The embedding models the shared status table (SST) as explicit record
states; each C++ predicate trigger becomes a pure Lean function on such a
state, and the predicate machine becomes a step relation.  Machine `int`
counters are modelled as `Int` (their values stay far from 2^31 here, so
overflow never matters), fixed-size SST array columns as fixed-length
lists updated with `List.set`, and fallible code as `Except String`.
-/

namespace Derecho

/-- Node identifiers (C++ `node_id_t`, a `uint32_t`). -/
abbrev NodeId := Nat

/-- Modelled from the spec: `View::rank_of(node_id)` (defined in `view.cpp`,
which is not among the sources) returns the index of the node in the
ordered `members` list, or `-1` when the node is not a member. -/
def rank_of (members : List NodeId) (id : NodeId) : Int :=
  match members with
  | [] => -1
  | m :: rest =>
    if m = id then 0
    else
      let r := rank_of rest id
      if r = -1 then -1 else r + 1

/-- IP address and the four ports of a joining node, as written into the
`joiner_ips` / `joiner_*_ports` SST columns by `receive_join`. -/
structure JoinerInfo where
  ip        : Nat
  gms_port  : Nat
  rpc_port  : Nat
  sst_port  : Nat
  rdmc_port : Nat
  deriving Repr, DecidableEq

/-- The GMS columns of one member's SST row: the four change counters and
the pending-changes vector (a fixed-capacity array in the C++ SST; its
Lean model is a list whose length never changes, updated with
`List.set`). -/
structure GmsRow where
  num_changes   : Int
  num_acked     : Int
  num_committed : Int
  num_installed : Int
  changes       : List NodeId
  joiner_info   : List JoinerInfo
  deriving Repr, DecidableEq

/-- Global state of the GMS columns of the SST: one row per member, plus
the per-member `failed` flags of the current View and the `rip`
(graceful-leave) SST column.  `leaderRank` is the rank of the current
leader (lowest-ranked non-failed member). -/
structure GmsState where
  nrows      : Nat
  leaderRank : Nat
  failed     : Nat → Bool
  rip        : Nat → Bool
  rows       : Nat → GmsRow

/-- Replace row `r` of the state. -/
def GmsState.setRow (s : GmsState) (r : Nat) (row : GmsRow) : GmsState :=
  { s with rows := fun i => if i = r then row else s.rows i }

@[simp] theorem GmsState.rows_setRow (s : GmsState) (r : Nat) (row : GmsRow) (i : Nat) :
    (s.setRow r row).rows i = if i = r then row else s.rows i := rfl

@[simp] theorem GmsState.nrows_setRow (s : GmsState) (r : Nat) (row : GmsRow) :
    (s.setRow r row).nrows = s.nrows := rfl

@[simp] theorem GmsState.leaderRank_setRow (s : GmsState) (r : Nat) (row : GmsRow) :
    (s.setRow r row).leaderRank = s.leaderRank := rfl

@[simp] theorem GmsState.failed_setRow (s : GmsState) (r : Nat) (row : GmsRow) :
    (s.setRow r row).failed = s.failed := rfl

/-- `ViewManager::min_acked` (view_manager.cpp:1625): starting from the
local row's `num_acked`, take the minimum over every row `n` with
`!failed[n]` of `num_acked[n]`. -/
def min_acked (s : GmsState) (myRank : Nat) : Int :=
  (List.range s.nrows).foldl
    (fun m n =>
      if s.failed n = false ∧ (s.rows n).num_acked < m then (s.rows n).num_acked else m)
    ((s.rows myRank).num_acked)

/-- The `change_commit_ready` predicate registered in
`ViewManager::register_predicates` (view_manager.cpp:609): the leader
fires `leader_commit_change` exactly when `min_acked` strictly exceeds
its own `num_committed`. -/
def change_commit_ready (s : GmsState) (myRank : Nat) (iAmLeader : Bool) : Bool :=
  iAmLeader && decide (min_acked s myRank > (s.rows myRank).num_committed)

/-- `ViewManager::leader_commit_change` (view_manager.cpp:762): the local
(leader) row's `num_committed` is set to `min_acked`. -/
def leader_commit_change (s : GmsState) (myRank : Nat) : GmsState :=
  s.setRow myRank { s.rows myRank with num_committed := min_acked s myRank }

/-- `ViewManager::acknowledge_proposed_change` (view_manager.cpp:770): a
non-leader copies the leader's `num_changes`, `changes[]`, joiner
vectors and `num_committed` into its own row; every node then sets its
own `num_acked` to its (new) `num_changes`. -/
def acknowledge_proposed_change (s : GmsState) (myRank : Nat) : GmsState :=
  let leader := s.leaderRank
  let s1 :=
    if myRank ≠ leader then
      s.setRow myRank
        { s.rows myRank with
          num_changes   := (s.rows leader).num_changes
          changes       := (s.rows leader).changes
          joiner_info   := (s.rows leader).joiner_info
          num_committed := (s.rows leader).num_committed }
    else s
  s1.setRow myRank { s1.rows myRank with num_acked := (s1.rows myRank).num_changes }

/-- The leader-initiated proposal block of `ViewManager::new_suspicion`
(view_manager.cpp:704-719): append the failed node to the pending
changes at index `num_changes - num_installed` and increment
`num_changes`.  (The C++ code throws first when that index has reached
the capacity of `changes[]`; the step relation below carries that bound
as a guard.) -/
def propose_change (s : GmsState) (myRank : Nat) (q : NodeId) : GmsState :=
  let row := s.rows myRank
  let next := (row.num_changes - row.num_installed).toNat
  s.setRow myRank
    { row with
      changes     := row.changes.set next q
      num_changes := row.num_changes + 1 }

/-- Marking a member failed (`Vc.failed[q] = true` inside
`new_suspicion`). -/
def mark_failed (s : GmsState) (q : Nat) : GmsState :=
  { s with failed := fun i => if i = q then true else s.failed i }

/-- `ViewManager::receive_join` (view_manager.cpp:1227): refuse (by
throwing) when the pending-changes window `num_changes - num_committed`
has reached the capacity of `changes[]`; answer `ID_IN_USE` (returning
`false` without any state change) when the joiner's ID is already in the
View; otherwise record the joiner in `changes[]` and the joiner columns
and increment `num_changes` by one, returning `true`. -/
def receive_join (s : GmsState) (members : List NodeId) (myRank : Nat)
    (joiner : NodeId) (info : JoinerInfo) : Except String (Bool × GmsState) :=
  let row := s.rows myRank
  if row.num_changes - row.num_committed = (row.changes.length : Int) then
    .error "Too many changes to allow a Join right now"
  else if rank_of members joiner ≠ -1 then
    .ok (false, s)
  else
    let next := (row.num_changes - row.num_installed).toNat
    .ok (true, s.setRow myRank
      { row with
        changes     := row.changes.set next joiner
        joiner_info := row.joiner_info.set next info
        num_changes := row.num_changes + 1 })

/-- One firing of a GMS predicate trigger, as a step relation on the
global GMS state.  The guards are the SST predicates that gate each
trigger in `register_predicates`, plus the in-trigger capacity check of
`new_suspicion`. -/
inductive GmsStep : GmsState → GmsState → Prop where
  /-- `acknowledge_proposed_change` at rank `r`, gated by the
  `leader_proposed_change` predicate. -/
  | ack {s : GmsState} (r : Nat)
      (hg : (s.rows s.leaderRank).num_changes > (s.rows r).num_acked) :
      GmsStep s (acknowledge_proposed_change s r)
  /-- `leader_commit_change` at the leader, gated by
  `change_commit_ready`. -/
  | commit {s : GmsState}
      (hg : min_acked s s.leaderRank > (s.rows s.leaderRank).num_committed) :
      GmsStep s (leader_commit_change s s.leaderRank)
  /-- `new_suspicion` processing a newly suspected member `q` at a
  non-leader: the member is only marked failed. -/
  | suspect {s : GmsState} (q : Nat) :
      GmsStep s (mark_failed s q)
  /-- `new_suspicion` processing a newly suspected member `q` at the
  leader, which additionally proposes the removal (guarded by the
  capacity check at view_manager.cpp:707). -/
  | suspectLeader {s : GmsState} (q : Nat)
      (hcap : ((s.rows s.leaderRank).num_changes - (s.rows s.leaderRank).num_installed).toNat
        < (s.rows s.leaderRank).changes.length) :
      GmsStep s (propose_change (mark_failed s q) (mark_failed s q).leaderRank q)
  /-- `receive_join` at the leader (gated by `start_join_pred`), in
  either of its two non-throwing outcomes. -/
  | join {s : GmsState} (s2 : GmsState) (members : List NodeId) (joiner : NodeId)
      (info : JoinerInfo) (b : Bool)
      (h : receive_join s members s.leaderRank joiner info = .ok (b, s2)) :
      GmsStep s s2

/-- The initial GMS state: `n` rows, all counters zero, a pending-changes
array of capacity `cap`, leader at rank `L`, nobody failed or departed. -/
def gms_init (n cap L : Nat) : GmsState :=
  { nrows := n
    leaderRank := L
    failed := fun _ => false
    rip := fun _ => false
    rows := fun _ =>
      { num_changes := 0, num_acked := 0, num_committed := 0, num_installed := 0
        changes := List.replicate cap 0
        joiner_info := List.replicate cap ⟨0, 0, 0, 0, 0⟩ } }

/-- States reachable from the initial state by firing GMS triggers. -/
def GmsReachable (n cap L : Nat) (s : GmsState) : Prop :=
  Relation.ReflTransGen GmsStep (gms_init n cap L) s

/-- The per-row counter invariant of the four-phase change protocol. -/
def RowInv (row : GmsRow) : Prop :=
  row.num_committed ≤ row.num_acked ∧ row.num_acked ≤ row.num_changes

/-- Every row of the state satisfies `RowInv`. -/
def GmsInv (s : GmsState) : Prop := ∀ r, RowInv (s.rows r)

/-- The `min_acked` fold never exceeds its starting value. -/
theorem min_acked_foldl_le (s : GmsState) (l : List Nat) (a : Int) :
    l.foldl
      (fun m n =>
        if s.failed n = false ∧ (s.rows n).num_acked < m then (s.rows n).num_acked else m)
      a ≤ a := by
  induction l generalizing a with
  | nil => simp
  | cons n l ih =>
    simp only [List.foldl_cons]
    by_cases h : s.failed n = false ∧ (s.rows n).num_acked < a
    · simp only [if_pos h]
      exact le_trans (ih _) (le_of_lt h.2)
    · simp only [if_neg h]
      exact ih a

/-- `min_acked` is bounded by the local row's `num_acked`. -/
theorem min_acked_le_local (s : GmsState) (myRank : Nat) :
    min_acked s myRank ≤ (s.rows myRank).num_acked :=
  min_acked_foldl_le s _ _

/-- Lower-bound characterisation of the `min_acked` fold. -/
theorem min_acked_foldl_ge_iff (s : GmsState) (l : List Nat) (a : Int) (k : Int) :
    k ≤ l.foldl
      (fun m n =>
        if s.failed n = false ∧ (s.rows n).num_acked < m then (s.rows n).num_acked else m)
      a
    ↔ k ≤ a ∧ ∀ n ∈ l, s.failed n = false → k ≤ (s.rows n).num_acked := by
  induction l generalizing a with
  | nil => simp
  | cons n l ih =>
    simp only [List.foldl_cons, ih, List.mem_cons]
    constructor
    · rintro ⟨h1, h2⟩
      by_cases h : s.failed n = false ∧ (s.rows n).num_acked < a
      · simp only [if_pos h] at h1
        refine ⟨le_trans h1 (le_of_lt h.2), ?_⟩
        rintro m (rfl | hm) hf
        · exact h1
        · exact h2 m hm hf
      · simp only [if_neg h] at h1
        refine ⟨h1, ?_⟩
        rintro m (rfl | hm) hf
        · rcases not_and_or.mp h with hc | hc
          · exact absurd hf hc
          · exact le_trans h1 (not_lt.mp hc)
        · exact h2 m hm hf
    · rintro ⟨h1, h2⟩
      by_cases h : s.failed n = false ∧ (s.rows n).num_acked < a
      · simp only [if_pos h]
        exact ⟨h2 n (Or.inl rfl) h.1, fun m hm hf => h2 m (Or.inr hm) hf⟩
      · simp only [if_neg h]
        exact ⟨h1, fun m hm hf => h2 m (Or.inr hm) hf⟩

/-- `min_acked` as the infimum of `num_acked` over the local row and all
non-failed rows. -/
theorem min_acked_ge_iff (s : GmsState) (myRank : Nat) (k : Int) :
    k ≤ min_acked s myRank
    ↔ k ≤ (s.rows myRank).num_acked
      ∧ ∀ n, n < s.nrows → s.failed n = false → k ≤ (s.rows n).num_acked := by
  unfold min_acked
  rw [min_acked_foldl_ge_iff]
  simp [List.mem_range]

@[simp] theorem mark_failed_rows (s : GmsState) (q : Nat) :
    (mark_failed s q).rows = s.rows := rfl

@[simp] theorem mark_failed_leaderRank (s : GmsState) (q : Nat) :
    (mark_failed s q).leaderRank = s.leaderRank := rfl

@[simp] theorem mark_failed_nrows (s : GmsState) (q : Nat) :
    (mark_failed s q).nrows = s.nrows := rfl

/-- The acting row after `acknowledge_proposed_change`. -/
theorem ack_row_self (s : GmsState) (r : Nat) :
    (acknowledge_proposed_change s r).rows r =
      if r ≠ s.leaderRank then
        { s.rows r with
          num_changes   := (s.rows s.leaderRank).num_changes
          changes       := (s.rows s.leaderRank).changes
          joiner_info   := (s.rows s.leaderRank).joiner_info
          num_committed := (s.rows s.leaderRank).num_committed
          num_acked     := (s.rows s.leaderRank).num_changes }
      else { s.rows r with num_acked := (s.rows r).num_changes } := by
  unfold acknowledge_proposed_change
  by_cases hr : r ≠ s.leaderRank <;> simp [hr]

/-- Rows other than the acting one are untouched by
`acknowledge_proposed_change`. -/
theorem ack_row_other (s : GmsState) (r i : Nat) (hi : i ≠ r) :
    (acknowledge_proposed_change s r).rows i = s.rows i := by
  unfold acknowledge_proposed_change
  by_cases hr : r ≠ s.leaderRank <;> simp [hr, hi]

/-- A GMS trigger firing preserves the counter invariant. -/
theorem GmsStep.preserves_inv {s s2 : GmsState} (h : GmsStep s s2) (hinv : GmsInv s) :
    GmsInv s2 := by
  cases h with
  | ack r hg =>
    intro i
    by_cases hi : i = r
    · subst hi
      rw [ack_row_self]
      obtain ⟨hL1, hL2⟩ := hinv s.leaderRank
      obtain ⟨hI1, hI2⟩ := hinv i
      by_cases hr : i ≠ s.leaderRank
      · rw [if_pos hr]
        exact ⟨le_trans hL1 hL2, le_refl _⟩
      · rw [if_neg hr]
        exact ⟨le_trans hI1 hI2, le_refl _⟩
    · rw [ack_row_other s r i hi]
      exact hinv i
  | commit hg =>
    intro i
    unfold leader_commit_change
    by_cases hi : i = s.leaderRank
    · simp only [GmsState.rows_setRow, if_pos hi]
      exact ⟨min_acked_le_local s s.leaderRank, (hinv s.leaderRank).2⟩
    · simp only [GmsState.rows_setRow, if_neg hi]
      exact hinv i
  | suspect q =>
    intro i
    exact hinv i
  | suspectLeader q hcap =>
    intro i
    unfold propose_change
    simp only [GmsState.rows_setRow, mark_failed_rows, mark_failed_leaderRank]
    by_cases hi : i = s.leaderRank
    · rw [if_pos hi]
      obtain ⟨h1, h2⟩ := hinv s.leaderRank
      refine ⟨h1, ?_⟩
      show (s.rows s.leaderRank).num_acked ≤ (s.rows s.leaderRank).num_changes + 1
      omega
    · rw [if_neg hi]
      exact hinv i
  | join s2 members joiner info b h =>
    unfold receive_join at h
    by_cases hcap : (s.rows s.leaderRank).num_changes - (s.rows s.leaderRank).num_committed
        = ((s.rows s.leaderRank).changes.length : Int)
    · simp [hcap] at h
    · by_cases hid : rank_of members joiner ≠ -1
      · simp only [if_neg hcap, if_pos hid] at h
        cases h
        exact hinv
      · simp only [if_neg hcap, if_neg hid] at h
        cases h
        intro i
        simp only [GmsState.rows_setRow]
        by_cases hi : i = s.leaderRank
        · rw [if_pos hi]
          obtain ⟨h1, h2⟩ := hinv s.leaderRank
          refine ⟨h1, ?_⟩
          show (s.rows s.leaderRank).num_acked ≤ (s.rows s.leaderRank).num_changes + 1
          omega
        · rw [if_neg hi]
          exact hinv i

/-- C2: in every state reachable by the GMS predicate triggers, every
member's own SST row satisfies `num_committed ≤ num_acked ≤ num_changes`;
moreover `acknowledge_proposed_change` always ends with
`num_acked = num_changes` on the acting row, and `leader_commit_change`
sets the local `num_committed` to `min_acked`, which never exceeds the
local `num_acked`. -/
theorem gms_counter_invariant (n cap L : Nat) (s : GmsState)
    (h : GmsReachable n cap L s) :
    GmsInv s
    ∧ (∀ t r, ((acknowledge_proposed_change t r).rows r).num_acked
        = ((acknowledge_proposed_change t r).rows r).num_changes)
    ∧ (∀ t r, ((leader_commit_change t r).rows r).num_committed = min_acked t r
        ∧ min_acked t r ≤ (t.rows r).num_acked) := by
  refine ⟨?_, ?_, ?_⟩
  · induction h with
    | refl =>
      intro r
      exact ⟨le_refl _, le_refl _⟩
    | tail hsteps hstep ih =>
      exact hstep.preserves_inv ih
  · intro t r
    rw [ack_row_self]
    by_cases hr : r ≠ t.leaderRank
    · rw [if_pos hr]
    · rw [if_neg hr]
  · intro t r
    unfold leader_commit_change
    exact ⟨by simp, min_acked_le_local t r⟩

/-- Witness for `gms_counter_invariant` at the initial 3-member state. -/
theorem gms_counter_invariant_witness :
    GmsInv (gms_init 3 10 0)
    ∧ (∀ t r, ((acknowledge_proposed_change t r).rows r).num_acked
        = ((acknowledge_proposed_change t r).rows r).num_changes)
    ∧ (∀ t r, ((leader_commit_change t r).rows r).num_committed = min_acked t r
        ∧ min_acked t r ≤ (t.rows r).num_acked) :=
  gms_counter_invariant 3 10 0 (gms_init 3 10 0) Relation.ReflTransGen.refl

/-- C4: the leader's commit step fires only when the minimum `num_acked`
over all non-failed members strictly exceeds the leader's current
`num_committed`; when it fires, the leader's `num_committed` becomes
exactly that minimum, so an index `k` is committed exactly when every
non-failed member has acknowledged at least `k`. -/
theorem leader_commit_change_correct (s : GmsState) (myRank : Nat)
    (hm : myRank < s.nrows) (hf : s.failed myRank = false) :
    (change_commit_ready s myRank true = true
      ↔ min_acked s myRank > (s.rows myRank).num_committed)
    ∧ ((leader_commit_change s myRank).rows myRank).num_committed = min_acked s myRank
    ∧ (∀ k : Int,
        k ≤ ((leader_commit_change s myRank).rows myRank).num_committed
        ↔ ∀ n, n < s.nrows → s.failed n = false → k ≤ (s.rows n).num_acked) := by
  refine ⟨?_, ?_, ?_⟩
  · simp [change_commit_ready]
  · unfold leader_commit_change
    simp
  · intro k
    have hc : ((leader_commit_change s myRank).rows myRank).num_committed
        = min_acked s myRank := by
      unfold leader_commit_change
      simp
    rw [hc, min_acked_ge_iff]
    constructor
    · rintro ⟨_, h2⟩
      exact h2
    · intro h
      exact ⟨h myRank hm hf, h⟩

/-- Witness for `leader_commit_change_correct` at the initial 3-member
state with the leader at rank 0. -/
theorem leader_commit_change_correct_witness :
    (change_commit_ready (gms_init 3 10 0) 0 true = true
      ↔ min_acked (gms_init 3 10 0) 0 > ((gms_init 3 10 0).rows 0).num_committed)
    ∧ ((leader_commit_change (gms_init 3 10 0) 0).rows 0).num_committed
        = min_acked (gms_init 3 10 0) 0
    ∧ (∀ k : Int,
        k ≤ ((leader_commit_change (gms_init 3 10 0) 0).rows 0).num_committed
        ↔ ∀ n, n < (gms_init 3 10 0).nrows → (gms_init 3 10 0).failed n = false
          → k ≤ ((gms_init 3 10 0).rows n).num_acked) :=
  leader_commit_change_correct (gms_init 3 10 0) 0 (by decide) rfl

/-- A GMS state whose pending-changes window is at capacity:
`num_changes - num_committed = 2`, the capacity of `changes[]`. -/
def join_full_state : GmsState :=
  { nrows := 2
    leaderRank := 0
    failed := fun _ => false
    rip := fun _ => false
    rows := fun _ =>
      { num_changes := 2, num_acked := 2, num_committed := 0, num_installed := 0
        changes := [5, 6]
        joiner_info := [⟨0, 0, 0, 0, 0⟩, ⟨0, 0, 0, 0, 0⟩] } }

/-- C7: `receive_join` at capacity does not back-pressure the join: it
throws (the C++ code raises `derecho_exception`, against the intent
recorded in its own TODO comment at view_manager.cpp:1230).  Below
capacity, an accepted join appends the joiner to `changes[]` and
increments `num_changes` by exactly one. -/
theorem receive_join_capacity_throws :
    receive_join join_full_state [1, 2] 0 7 ⟨9, 1, 2, 3, 4⟩
      = .error "Too many changes to allow a Join right now"
    ∧ (receive_join (gms_init 2 4 0) [1, 2] 0 7 ⟨9, 1, 2, 3, 4⟩).map
        (fun p => (p.1, (p.2.rows 0).num_changes, (p.2.rows 0).changes))
      = .ok (true, 1, [7, 0, 0, 0]) := by
  constructor <;> rfl

/-! ## Partition checks: `new_suspicion` and `report_failure` (C5) -/

/-- C++ signed integer division truncates toward zero. -/
def cppDiv (a b : Int) : Int := a.tdiv b

theorem cppDiv_eq_ediv (a b : Int) (ha : 0 ≤ a) : cppDiv a b = a / b := by
  match a, b, ha with
  | Int.ofNat n, Int.ofNat m, _ => rfl
  | Int.ofNat n, Int.negSucc m, _ => rfl

/-- Errors raised by the suspicion-processing triggers. -/
inductive GmsError where
  | partitionAbort
  | changesFull
  deriving Repr, DecidableEq

/-- The state read and written by `new_suspicion` and `report_failure`:
the `suspected` matrix, the `rip` column, the local copy
`last_suspected`, the View's `failed[]` / `num_failed`, and the GMS
change columns touched by the leader-proposal block. -/
structure SuspState where
  num_members    : Nat
  myRank         : Nat
  iAmLeader      : Bool
  suspected      : Nat → Nat → Bool
  last_suspected : Nat → Bool
  rip            : Nat → Bool
  viewFailed     : Nat → Bool
  num_failed     : Int
  wedged         : Bool
  members        : List NodeId
  changes        : List NodeId
  num_changes    : Int
  num_installed  : Int

/-- The `num_left` count accumulated by the aggregation loop of
`new_suspicion` (view_manager.cpp:671): the number of rows whose `rip`
flag is set. -/
def num_left_of (st : SuspState) : Nat :=
  ((List.range st.num_members).filter (fun r => st.rip r)).length

/-- `ViewManager::changes_contains` (view_manager.cpp:1612): whether `q`
occurs among the first `num_changes - num_installed` pending changes. -/
def changes_contains (st : SuspState) (q : NodeId) : Bool :=
  (st.changes.take (st.num_changes - st.num_installed).toNat).contains q

/-- The partition condition tested (twice) inside `new_suspicion`
(view_manager.cpp:683 and 694): `!rip[myRank] && num_failed != 0 &&
num_failed - num_left >= (num_members - num_left + 1) / 2`. -/
def partition_check (st : SuspState) (num_left : Nat) : Bool :=
  !st.rip st.myRank && st.num_failed != 0
    && decide (st.num_failed - num_left
        ≥ cppDiv ((st.num_members : Int) - num_left + 1) 2)

/-- The body of the per-member loop of `ViewManager::new_suspicion`
(view_manager.cpp:676-721) for one member `q`: if `q` is newly
suspected, record it in `last_suspected`, run the partition check, mark
`q` failed (freezing its row and wedging the view), re-run the partition
check, and, at the leader, propose the removal unless it is already
pending (throwing when `changes[]` is out of room). -/
def process_suspicion (num_left : Nat) (st : SuspState) (q : Nat) :
    Except GmsError SuspState :=
  if st.suspected st.myRank q && !st.last_suspected q then
    let st1 := { st with
      last_suspected := fun i => if i = q then true else st.last_suspected i }
    if partition_check st1 num_left then .error .partitionAbort
    else
      let st2 := { st1 with
        wedged := true
        viewFailed := fun i => if i = q then true else st1.viewFailed i
        num_failed := st1.num_failed + 1 }
      if partition_check st2 num_left then .error .partitionAbort
      else
        let qid := st2.members.getD q 0
        if st2.iAmLeader && !changes_contains st2 qid then
          if st2.num_changes - st2.num_installed = (st2.changes.length : Int) then
            .error .changesFull
          else
            .ok { st2 with
              changes := st2.changes.set (st2.num_changes - st2.num_installed).toNat qid
              num_changes := st2.num_changes + 1 }
        else .ok st2
  else .ok st

/-- The row-wise OR aggregation at the top of `new_suspicion`
(view_manager.cpp:666-674): `suspected[myRank][who] |=
suspected[r][who]` for every row `r`. -/
def aggregate_suspected (st : SuspState) : SuspState :=
  { st with
    suspected := fun i j =>
      if i = st.myRank then
        st.suspected st.myRank j
          || (List.range st.num_members).any (fun r => st.suspected r j)
      else st.suspected i j }

/-- `ViewManager::new_suspicion` (view_manager.cpp:660): aggregate the
suspicion matrix into the local row, then process each member in rank
order. -/
def new_suspicion (st : SuspState) : Except GmsError SuspState :=
  let st := aggregate_suspected st
  let num_left := num_left_of st
  (List.range st.num_members).foldlM (process_suspicion num_left) st

/-- The suspicion matrix after `report_failure` marks `who_rank`
suspected on the local row (view_manager.cpp:1747). -/
def report_susp (st : SuspState) (who_rank : Nat) : Nat → Nat → Bool :=
  fun i j => if i = st.myRank ∧ j = who_rank then true else st.suspected i j

/-- The `rip_cnt` accumulated by `report_failure`. -/
def rip_count (st : SuspState) : Nat :=
  ((List.range st.num_members).filter (fun r => st.rip r)).length

/-- The `failed_cnt` accumulated by `report_failure`: members that are
not `rip` but are suspected by the local row (after marking). -/
def report_failed_count (st : SuspState) (who_rank : Nat) : Nat :=
  ((List.range st.num_members).filter
    (fun r => !st.rip r && report_susp st who_rank st.myRank r)).length

/-- `ViewManager::report_failure` (view_manager.cpp:1744): mark the
reported node suspected, count `rip` rows and suspected-but-not-rip
rows, and raise the partition exception when `!rip[myRank] &&
failed_cnt != 0 && failed_cnt >= (num_members - rip_cnt + 1) / 2`. -/
def report_failure (st : SuspState) (who_rank : Nat) : Except GmsError Unit :=
  let failed_cnt := report_failed_count st who_rank
  let rip_cnt := rip_count st
  if !st.rip st.myRank && failed_cnt != 0
      && decide ((failed_cnt : Int)
        ≥ cppDiv ((st.num_members : Int) - rip_cnt + 1) 2) then
    .error .partitionAbort
  else .ok ()

/-- The partition formula exactly as the claim states it, applied to
`report_failure`: the number of failed (suspected) members minus the
number of gracefully-departed (`rip`) members is at least
`(num_members - num_left + 1) / 2`. -/
def claim_partition_formula (st : SuspState) (who_rank : Nat) : Prop :=
  let num_failed := ((List.range st.num_members).filter
    (fun r => report_susp st who_rank st.myRank r)).length
  let num_left := rip_count st
  (num_failed : Int) - num_left
    ≥ cppDiv ((st.num_members : Int) - num_left + 1) 2

/-- Three members; member 1 departed gracefully (`rip`) without being
suspected; member 2 is being reported as failed by member 0. -/
def report_cex_state : SuspState :=
  { num_members := 3
    myRank := 0
    iAmLeader := true
    suspected := fun _ _ => false
    last_suspected := fun _ => false
    rip := fun r => r == 1
    viewFailed := fun r => r == 2
    num_failed := 1
    wedged := false
    members := [10, 11, 12]
    changes := [0, 0, 0]
    num_changes := 0
    num_installed := 0 }

/-- C5, counterexample: `report_failure` raises the partition exception
on a state where the claim's formula `num_failed - num_left ≥
(num_members - num_left + 1) / 2` does not hold (a `rip` member that was
never suspected makes the code's count `failed_cnt` differ from
`num_failed - num_left`), so the claim's "if and only if" is false. -/
theorem report_failure_partition_cex :
    report_failure report_cex_state 2 = .error .partitionAbort
    ∧ ¬ claim_partition_formula report_cex_state 2 := by
  constructor
  · rfl
  · unfold claim_partition_formula
    decide

theorem partition_check_eq_true (st : SuspState) (num_left : Nat) :
    partition_check st num_left = true
    ↔ st.rip st.myRank = false ∧ st.num_failed ≠ 0
      ∧ st.num_failed - num_left
          ≥ cppDiv ((st.num_members : Int) - num_left + 1) 2 := by
  simp [partition_check, Bool.and_eq_true, Bool.not_eq_true', bne_iff_ne, and_assoc]

theorem filter_range_length_lt (n k : Nat) (p : Nat → Bool)
    (hk : k < n) (hp : p k = false) :
    ((List.range n).filter p).length < n := by
  have hle : ((List.range n).filter p).length ≤ n := by
    simpa using List.length_filter_le p (List.range n)
  rcases lt_or_eq_of_le hle with h | h
  · exact h
  · exfalso
    have hall : ∀ a ∈ List.range n, p a = true := by
      apply List.filter_length_eq_length.mp
      rw [List.length_range]
      exact h
    have := hall k (by simpa using hk)
    rw [hp] at this
    exact Bool.false_ne_true this

/-- Processing one new suspicion at a non-`rip` node raises the
partition exception exactly when the failure count after marking the
new suspicion, minus the departed count, reaches the threshold. -/
theorem process_suspicion_partition_iff (st : SuspState) (num_left q : Nat)
    (hrip : st.rip st.myRank = false) (hnf : 0 ≤ st.num_failed)
    (hsusp : st.suspected st.myRank q = true)
    (hlast : st.last_suspected q = false) :
    process_suspicion num_left st q = .error .partitionAbort
    ↔ st.num_failed + 1 - num_left
        ≥ cppDiv ((st.num_members : Int) - num_left + 1) 2 := by
  simp only [process_suspicion]
  rw [if_pos (show (st.suspected st.myRank q && !st.last_suspected q) = true by
    rw [hsusp, hlast]; rfl)]
  split_ifs with h1 h2 h3 h4
  · -- first partition check fired: the pre-marking count already reached
    -- the threshold, so the post-marking count does too
    have h1a : (!st.rip st.myRank && st.num_failed != 0
        && decide (st.num_failed - num_left
            ≥ cppDiv ((st.num_members : Int) - num_left + 1) 2)) = true := h1
    rw [hrip] at h1a
    simp only [Bool.not_false, Bool.true_and, Bool.and_eq_true, bne_iff_ne, ne_eq,
      decide_eq_true_eq] at h1a
    simp only [true_iff]
    have h12 := h1a.2
    generalize cppDiv ((st.num_members : Int) - num_left + 1) 2 = th at *
    omega
  · -- second partition check fired
    have h2a : (!st.rip st.myRank && (st.num_failed + 1) != 0
        && decide (st.num_failed + 1 - num_left
            ≥ cppDiv ((st.num_members : Int) - num_left + 1) 2)) = true := h2
    rw [hrip] at h2a
    simp only [Bool.not_false, Bool.true_and, Bool.and_eq_true, bne_iff_ne, ne_eq,
      decide_eq_true_eq] at h2a
    simp only [true_iff]
    exact h2a.2
  all_goals {
    -- neither check fired: the trigger does not abort, and the
    -- post-marking count is below the threshold
    have h2a : ¬ ((!st.rip st.myRank && (st.num_failed + 1) != 0
        && decide (st.num_failed + 1 - num_left
            ≥ cppDiv ((st.num_members : Int) - num_left + 1) 2)) = true) := h2
    rw [hrip] at h2a
    simp only [Bool.not_false, Bool.true_and, Bool.and_eq_true, bne_iff_ne, ne_eq,
      decide_eq_true_eq, not_and] at h2a
    constructor
    · intro hfalse
      exact absurd hfalse (by simp)
    · intro hge
      exfalso
      exact h2a (by omega) hge
  }

/-- `report_failure` at a non-`rip` node raises the partition exception
exactly when `failed_cnt` (suspected-and-not-rip members) reaches the
threshold `(num_members - rip_cnt + 1) / 2`; the code's extra
`failed_cnt != 0` test is redundant because the threshold is at least
one while the reporter itself is a non-rip member. -/
theorem report_failure_partition_iff (st : SuspState) (who : Nat)
    (hrip : st.rip st.myRank = false) (hm : st.myRank < st.num_members) :
    report_failure st who = .error .partitionAbort
    ↔ (report_failed_count st who : Int)
        ≥ cppDiv ((st.num_members : Int) - rip_count st + 1) 2 := by
  have hth : 1 ≤ cppDiv ((st.num_members : Int) - rip_count st + 1) 2 := by
    have hlt : rip_count st < st.num_members :=
      filter_range_length_lt st.num_members st.myRank _ hm hrip
    rw [cppDiv_eq_ediv _ _ (by omega)]
    omega
  simp only [report_failure]
  split_ifs with h
  · simp only [true_iff]
    simp only [Bool.and_eq_true, Bool.not_eq_true', bne_iff_ne, ne_eq,
      decide_eq_true_eq] at h
    exact h.2
  · simp only [Bool.and_eq_true, Bool.not_eq_true', bne_iff_ne, ne_eq,
      decide_eq_true_eq, not_and, hrip, true_implies, true_and] at h
    constructor
    · intro hfalse
      exact absurd hfalse (by simp)
    · intro hge
      exfalso
      exact h (by omega) hge

/-- `process_suspicion` never raises the partition exception at a node
whose own `rip` flag is set, and it preserves the `rip` column and
`myRank`. -/
theorem process_suspicion_rip (num_left q : Nat) (st : SuspState)
    (hrip : st.rip st.myRank = true) :
    process_suspicion num_left st q ≠ .error .partitionAbort
    ∧ ∀ st2, process_suspicion num_left st q = .ok st2 →
        st2.rip = st.rip ∧ st2.myRank = st.myRank := by
  simp only [process_suspicion]
  split_ifs with h1 h2 h3 h4 h5
  · have h2a : (!st.rip st.myRank && st.num_failed != 0
        && decide (st.num_failed - num_left
            ≥ cppDiv ((st.num_members : Int) - num_left + 1) 2)) = true := h2
    rw [hrip] at h2a
    simp at h2a
  · have h3a : (!st.rip st.myRank && (st.num_failed + 1) != 0
        && decide (st.num_failed + 1 - num_left
            ≥ cppDiv ((st.num_members : Int) - num_left + 1) 2)) = true := h3
    rw [hrip] at h3a
    simp at h3a
  · exact ⟨by simp, by intro st2 h; exact absurd h (by simp)⟩
  · refine ⟨by simp, ?_⟩
    intro st2 h
    cases h
    exact ⟨rfl, rfl⟩
  · refine ⟨by simp, ?_⟩
    intro st2 h
    cases h
    exact ⟨rfl, rfl⟩
  · refine ⟨by simp, ?_⟩
    intro st2 h
    cases h
    exact ⟨rfl, rfl⟩

theorem foldlM_process_no_partition (num_left : Nat) (l : List Nat) (st : SuspState)
    (hrip : st.rip st.myRank = true) :
    l.foldlM (process_suspicion num_left) st ≠ .error .partitionAbort := by
  induction l generalizing st with
  | nil =>
    intro h
    exact Except.noConfusion h
  | cons a l ih =>
    rw [List.foldlM_cons]
    obtain ⟨hne, hok⟩ := process_suspicion_rip num_left a st hrip
    cases hres : process_suspicion num_left st a with
    | error e =>
      intro hcontra
      have h2 : (Except.error e : Except GmsError SuspState)
          = Except.error GmsError.partitionAbort := hcontra
      exact hne (hres.trans h2)
    | ok st2 =>
      have hpres := hok st2 hres
      have hrip2 : st2.rip st2.myRank = true := by
        rw [hpres.1, hpres.2]
        exact hrip
      exact ih st2 hrip2

/-- C5 (amended): processing a new suspicion at a non-`rip` node raises
the partition exception iff the failure count after marking the new
suspicion, minus the departed (`num_left`) count, is at least
`(num_members - num_left + 1) / 2`; `report_failure` at a non-`rip` node
raises it iff its count of suspected-and-not-rip members reaches
`(num_members - rip_cnt + 1) / 2` (these agree only when every `rip`
member is also suspected); a node with its own `rip` flag set never
raises the partition exception. -/
theorem partition_exception_characterisation :
    (∀ (st : SuspState) (num_left q : Nat),
      st.rip st.myRank = false → 0 ≤ st.num_failed →
      st.suspected st.myRank q = true → st.last_suspected q = false →
      (process_suspicion num_left st q = .error .partitionAbort
        ↔ st.num_failed + 1 - num_left
            ≥ cppDiv ((st.num_members : Int) - num_left + 1) 2))
    ∧ (∀ (st : SuspState) (who : Nat),
      st.rip st.myRank = false → st.myRank < st.num_members →
      (report_failure st who = .error .partitionAbort
        ↔ (report_failed_count st who : Int)
            ≥ cppDiv ((st.num_members : Int) - rip_count st + 1) 2))
    ∧ (∀ (st : SuspState) (who : Nat),
      st.rip st.myRank = true →
      new_suspicion st ≠ .error .partitionAbort
      ∧ report_failure st who ≠ .error .partitionAbort) := by
  refine ⟨process_suspicion_partition_iff, report_failure_partition_iff, ?_⟩
  intro st who hrip
  constructor
  · exact foldlM_process_no_partition (num_left_of (aggregate_suspected st))
      (List.range (aggregate_suspected st).num_members) (aggregate_suspected st) hrip
  · simp [report_failure, hrip]

/-- A two-member state in which member 1 is newly suspected by the local
member 0 and nobody has departed. -/
def susp_wit_state : SuspState :=
  { num_members := 2
    myRank := 0
    iAmLeader := true
    suspected := fun _ j => j == 1
    last_suspected := fun _ => false
    rip := fun _ => false
    viewFailed := fun _ => false
    num_failed := 0
    wedged := false
    members := [10, 11]
    changes := [0, 0, 0, 0]
    num_changes := 0
    num_installed := 0 }

/-- The same state after the local member departed gracefully. -/
def rip_wit_state : SuspState :=
  { susp_wit_state with rip := fun _ => true }

/-- Witness for `partition_exception_characterisation` at concrete
two-member states. -/
theorem partition_exception_characterisation_witness :
    (process_suspicion 0 susp_wit_state 1 = .error .partitionAbort
      ↔ susp_wit_state.num_failed + 1 - ((0 : Nat) : Int)
          ≥ cppDiv ((susp_wit_state.num_members : Int) - (0 : Nat) + 1) 2)
    ∧ (report_failure susp_wit_state 1 = .error .partitionAbort
      ↔ (report_failed_count susp_wit_state 1 : Int)
          ≥ cppDiv ((susp_wit_state.num_members : Int) - rip_count susp_wit_state + 1) 2)
    ∧ (new_suspicion rip_wit_state ≠ .error .partitionAbort
      ∧ report_failure rip_wit_state 0 ≠ .error .partitionAbort) :=
  ⟨partition_exception_characterisation.1 susp_wit_state 0 1 rfl (by decide) rfl rfl,
   partition_exception_characterisation.2.1 susp_wit_state 1 rfl (by decide),
   partition_exception_characterisation.2.2 rip_wit_state 0 rfl⟩

/-! ## `make_next_view` (C6) -/

/-- The View record built by `make_next_view`.  (The `View` class itself
lives in `view.h`/`view.cpp`, outside the sources; per its constructor
call at view_manager.cpp:1556 it is a plain record of these fields.) -/
structure CppView where
  vid : Int
  members : List NodeId
  member_ips_and_ports : List JoinerInfo
  failed : List Bool
  joined : List NodeId
  departed : List NodeId
  my_rank : Int
  next_unassigned_rank : Int
  deriving Repr, DecidableEq

/-- Whether old rank `r` belongs to `leave_ranks`: the classification
loop of `make_next_view` (view_manager.cpp:1486-1495) inserts
`rank_of(change_id)` for every committed change already in the view. -/
def is_leave_rank (V : CppView) (cc : List NodeId) (r : Nat) : Bool :=
  cc.any (fun c => rank_of V.members c = (r : Int))

/-- `join_indexes` of `make_next_view`: committed change indices whose
id is not in the current view. -/
def mnv_join_idx (V : CppView) (changes : List NodeId) (count : Nat) : List Nat :=
  (List.range count).filter (fun i => rank_of V.members (changes.getD i 0) = -1)

/-- The `joined` list built by `make_next_view`: the joiner ids, in
change order. -/
def mnv_joined (V : CppView) (changes : List NodeId) (count : Nat) : List NodeId :=
  (mnv_join_idx V changes count).map (fun i => changes.getD i 0)

/-- `leave_ranks` of `make_next_view` as the ascending list of ranks
(`std::set<int>` iterates in ascending order). -/
def mnv_leave_ranks (V : CppView) (changes : List NodeId) (count : Nat) : List Nat :=
  (List.range V.members.length).filter (is_leave_rank V (changes.take count))

/-- The surviving old ranks, in old order (the copy loop at
view_manager.cpp:1532-1541 keeps every rank not in `leave_ranks`). -/
def mnv_surviv (V : CppView) (changes : List NodeId) (count : Nat) : List Nat :=
  (List.range V.members.length).filter
    (fun r => !(is_leave_rank V (changes.take count) r))

/-- The next view's members: survivors in old relative order, then the
joiners (the joiners are written at ranks `num - leaves + i`, i.e.
appended after the survivors). -/
def mnv_members2 (V : CppView) (changes : List NodeId) (count : Nat) : List NodeId :=
  (mnv_surviv V changes count).map (fun r => V.members.getD r 0)
    ++ mnv_joined V changes count

/-- The local node's id, `curr_view->members[myRank]`. -/
def mnv_myID (V : CppView) : NodeId :=
  V.members.getD V.my_rank.toNat 0

/-- `ViewManager::make_next_view` (view_manager.cpp:1477): classify the
first `count` committed pending changes into leaves (ids already in the
view, collected as a sorted set of ranks) and joins (kept in change
order); copy the surviving members in old order; append the joiners at
the end; compute the local node's new rank, throwing if it was removed;
decrement `next_unassigned_rank` once per leaver at or below it; and
build the next view with `vid + 1`. -/
def make_next_view (V : CppView) (changes : List NodeId)
    (jinfo : List JoinerInfo) (count : Nat) : Except String CppView :=
  if rank_of (mnv_members2 V changes count) (mnv_myID V) = -1 then
    .error "Some other node reported that I failed"
  else
    .ok { vid := V.vid + 1
          members := mnv_members2 V changes count
          member_ips_and_ports :=
            (mnv_surviv V changes count).map
              (fun r => V.member_ips_and_ports.getD r ⟨0, 0, 0, 0, 0⟩)
            ++ (mnv_join_idx V changes count).map
              (fun i => jinfo.getD i ⟨0, 0, 0, 0, 0⟩)
          failed :=
            (mnv_surviv V changes count).map (fun r => V.failed.getD r false)
            ++ (mnv_joined V changes count).map (fun _ => false)
          joined := mnv_joined V changes count
          departed := (mnv_leave_ranks V changes count).map
            (fun r => V.members.getD r 0)
          my_rank := rank_of (mnv_members2 V changes count) (mnv_myID V)
          next_unassigned_rank := V.next_unassigned_rank
            - ((mnv_leave_ranks V changes count).filter
                (fun r => (r : Int) ≤ V.next_unassigned_rank)).length }

theorem rank_of_nonneg_or (l : List NodeId) (x : NodeId) :
    rank_of l x = -1 ∨ 0 ≤ rank_of l x := by
  induction l with
  | nil => left; rfl
  | cons a l ih =>
    simp only [rank_of]
    by_cases h : a = x
    · right
      simp [h]
    · simp only [h, if_false]
      rcases ih with h1 | h1
      · left
        simp [h1]
      · have hne : rank_of l x ≠ -1 := by omega
        right
        rw [if_neg hne]
        omega

theorem rank_of_eq_neg_one_iff (l : List NodeId) (x : NodeId) :
    rank_of l x = -1 ↔ x ∉ l := by
  induction l with
  | nil => simp [rank_of]
  | cons a l ih =>
    simp only [rank_of, List.mem_cons]
    by_cases h : a = x
    · subst h
      simp
    · simp only [h, if_false]
      rcases rank_of_nonneg_or l x with h1 | h1
      · rw [if_pos h1]
        simp only [h1, true_iff] at ih
        constructor
        · intro _
          push_neg
          exact ⟨fun hxa => h hxa.symm, ih⟩
        · intro _
          rfl
      · have hne : rank_of l x ≠ -1 := by omega
        rw [if_neg hne]
        constructor
        · intro hcontra
          omega
        · intro hnot
          push_neg at hnot
          exact absurd (ih.mpr hnot.2) hne

/-- For a member `x` of `l`, `rank_of` returns a valid index whose entry
is `x`. -/
theorem getD_rank_of (l : List NodeId) (x : NodeId) (h : x ∈ l) :
    0 ≤ rank_of l x ∧ (rank_of l x).toNat < l.length
    ∧ l.getD (rank_of l x).toNat 0 = x := by
  induction l with
  | nil => cases h
  | cons a l ih =>
    by_cases hax : a = x
    · subst hax
      refine ⟨by simp [rank_of], ?_, ?_⟩ <;> simp [rank_of]
    · have hxl : x ∈ l := by
        rcases List.mem_cons.mp h with h1 | h1
        · exact absurd h1.symm hax
        · exact h1
      obtain ⟨ih1, ih2, ih3⟩ := ih hxl
      have hne : rank_of l x ≠ -1 :=
        fun hc => (rank_of_eq_neg_one_iff l x).mp hc hxl
      have hr : rank_of (a :: l) x = rank_of l x + 1 := by
        simp only [rank_of, hax, if_false]
        rw [if_neg hne]
      refine ⟨by omega, ?_, ?_⟩
      · rw [hr, List.length_cons]
        omega
      · rw [hr]
        have htn : (rank_of l x + 1).toNat = (rank_of l x).toNat + 1 := by omega
        rw [htn, List.getD_cons_succ]
        exact ih3

/-- In a duplicate-free list, the member at rank `r` has rank `r`. -/
theorem rank_of_getD (l : List NodeId) (hnodup : l.Nodup) (r : Nat)
    (hr : r < l.length) :
    rank_of l (l.getD r 0) = (r : Int) := by
  induction l generalizing r with
  | nil => simp at hr
  | cons a l ih =>
    cases r with
    | zero =>
      simp [rank_of]
    | succ r =>
      have hr2 : r < l.length := by
        simp only [List.length_cons] at hr
        omega
      have hx : l.getD r 0 ∈ l := by
        rw [List.getD_eq_getElem l 0 hr2]
        exact List.getElem_mem hr2
      have hax : a ≠ l.getD r 0 := by
        intro hcontra
        rw [hcontra] at hnodup
        exact (List.nodup_cons.mp hnodup).1 hx
      have hih := ih (List.nodup_cons.mp hnodup).2 r hr2
      have hne : rank_of l (l.getD r 0) ≠ -1 :=
        fun hc => (rank_of_eq_neg_one_iff l _).mp hc hx
      simp only [List.getD_cons_succ, rank_of, hax, if_false]
      rw [if_neg hne, hih]
      push_cast
      ring

/-- `is_leave_rank` holds exactly when the member at that rank is among
the committed changes. -/
theorem is_leave_rank_iff (V : CppView) (cc : List NodeId) (r : Nat)
    (hnodup : V.members.Nodup) (hr : r < V.members.length) :
    is_leave_rank V cc r = true ↔ V.members.getD r 0 ∈ cc := by
  simp only [is_leave_rank, List.any_eq_true, decide_eq_true_eq]
  constructor
  · rintro ⟨c, hc, heq⟩
    have hcm : c ∈ V.members := by
      by_contra hnot
      rw [← rank_of_eq_neg_one_iff] at hnot
      rw [hnot] at heq
      omega
    obtain ⟨-, -, hget⟩ := getD_rank_of V.members c hcm
    rw [heq] at hget
    simp only [Int.toNat_ofNat] at hget
    rw [hget]
    exact hc
  · intro hmem
    exact ⟨V.members.getD r 0, hmem, rank_of_getD V.members hnodup r hr⟩

theorem getD_take (l : List NodeId) (n i : Nat) (d : NodeId) (h : i < n) :
    (l.take n).getD i d = l.getD i d := by
  induction l generalizing i n with
  | nil => simp
  | cons a l ih =>
    cases n with
    | zero => omega
    | succ n =>
      cases i with
      | zero => rfl
      | succ i =>
        simp only [List.take_succ_cons, List.getD_cons_succ]
        exact ih n i (by omega)

/-- Filtering ranks and reading the entries back equals filtering the
list itself. -/
theorem filter_range_map_getD (l : List NodeId) (p : NodeId → Bool) :
    (((List.range l.length).filter (fun i => p (l.getD i 0))).map
      (fun i => l.getD i 0)) = l.filter p := by
  induction l with
  | nil => simp
  | cons a l ih =>
    rw [List.length_cons, List.range_succ_eq_map]
    have hfun1 : ((fun i => p ((a :: l).getD i 0)) ∘ Nat.succ)
        = (fun i => p (l.getD i 0)) := funext (fun i => rfl)
    have hfun2 : ((fun i => (a :: l).getD i 0) ∘ Nat.succ)
        = (fun i => l.getD i 0) := funext (fun i => rfl)
    by_cases hp : p a = true
    · rw [List.filter_cons_of_pos (by exact hp), List.map_cons,
        List.filter_cons_of_pos (by exact hp)]
      congr 1
      rw [List.filter_map, List.map_map, hfun1, hfun2]
      exact ih
    · rw [List.filter_cons_of_neg (by simpa using hp),
        List.filter_cons_of_neg (by simpa using hp)]
      rw [List.filter_map, List.map_map, hfun1, hfun2]
      exact ih

theorem mnv_joined_eq (V : CppView) (changes : List NodeId) (count : Nat)
    (hcount : count ≤ changes.length) :
    mnv_joined V changes count
      = (changes.take count).filter (fun c => !(decide (c ∈ V.members))) := by
  have hccl : (changes.take count).length = count := by
    rw [List.length_take]
    omega
  unfold mnv_joined mnv_join_idx
  have h1 : (List.range count).filter
        (fun i => decide (rank_of V.members (changes.getD i 0) = -1))
      = (List.range (changes.take count).length).filter
        (fun i => decide (rank_of V.members ((changes.take count).getD i 0) = -1)) := by
    rw [hccl]
    apply List.filter_congr
    intro i hi
    rw [getD_take changes count i 0 (List.mem_range.mp hi)]
  rw [h1]
  have h2 : ∀ i ∈ (List.range (changes.take count).length).filter
        (fun i => decide (rank_of V.members ((changes.take count).getD i 0) = -1)),
      changes.getD i 0 = (changes.take count).getD i 0 := by
    intro i hi
    have hilt : i < count := by
      have := List.mem_range.mp (List.mem_of_mem_filter hi)
      omega
    exact (getD_take changes count i 0 hilt).symm
  rw [List.map_congr_left h2,
    filter_range_map_getD (changes.take count)
      (fun c => decide (rank_of V.members c = -1))]
  apply List.filter_congr
  intro c _
  by_cases h : c ∈ V.members
  · have : rank_of V.members c ≠ -1 :=
      fun hc => (rank_of_eq_neg_one_iff _ _).mp hc h
    simp [h, this]
  · have : rank_of V.members c = -1 := (rank_of_eq_neg_one_iff _ _).mpr h
    simp [h, this]

theorem mnv_surviv_map_eq (V : CppView) (changes : List NodeId) (count : Nat)
    (hnodup : V.members.Nodup) :
    (mnv_surviv V changes count).map (fun r => V.members.getD r 0)
      = V.members.filter (fun m => !(decide (m ∈ changes.take count))) := by
  unfold mnv_surviv
  have h1 : (List.range V.members.length).filter
        (fun r => !(is_leave_rank V (changes.take count) r))
      = (List.range V.members.length).filter
        (fun r => !(decide (V.members.getD r 0 ∈ changes.take count))) := by
    apply List.filter_congr
    intro r hr
    have hrn := List.mem_range.mp hr
    by_cases h : V.members.getD r 0 ∈ changes.take count
    · rw [(is_leave_rank_iff V _ r hnodup hrn).mpr h, decide_eq_true h]
    · have hfalse : is_leave_rank V (changes.take count) r = false :=
        Bool.eq_false_iff.mpr
          (fun hc => h ((is_leave_rank_iff V _ r hnodup hrn).mp hc))
      rw [hfalse, decide_eq_false h]
  rw [h1]
  exact filter_range_map_getD V.members (fun m => !(decide (m ∈ changes.take count)))

theorem mnv_leave_map_eq (V : CppView) (changes : List NodeId) (count : Nat)
    (hnodup : V.members.Nodup) :
    (mnv_leave_ranks V changes count).map (fun r => V.members.getD r 0)
      = V.members.filter (fun m => decide (m ∈ changes.take count)) := by
  unfold mnv_leave_ranks
  have h1 : (List.range V.members.length).filter
        (is_leave_rank V (changes.take count))
      = (List.range V.members.length).filter
        (fun r => decide (V.members.getD r 0 ∈ changes.take count)) := by
    apply List.filter_congr
    intro r hr
    have hrn := List.mem_range.mp hr
    by_cases h : V.members.getD r 0 ∈ changes.take count
    · rw [(is_leave_rank_iff V _ r hnodup hrn).mpr h, decide_eq_true h]
    · have hfalse : is_leave_rank V (changes.take count) r = false :=
        Bool.eq_false_iff.mpr
          (fun hc => h ((is_leave_rank_iff V _ r hnodup hrn).mp hc))
      rw [hfalse, decide_eq_false h]
  rw [h1]
  exact filter_range_map_getD V.members (fun m => decide (m ∈ changes.take count))

/-- C6: applying the committed changes `changes[0..count)` to view `V`
yields a view with `vid = V.vid + 1` whose members are `V`'s members
minus the committed leavers, in their old relative order, followed by
the committed joiners in change order; `joined` is exactly the list of
committed joiners and `departed` exactly the committed leavers (as a
permutation: the code lists leavers in ascending old-rank order); and
`make_next_view` throws exactly when the local node is among the
committed leavers. -/
theorem make_next_view_correct (V : CppView) (changes : List NodeId)
    (jinfo : List JoinerInfo) (count : Nat)
    (hnodup : V.members.Nodup) (hcount : count ≤ changes.length)
    (hcc : (changes.take count).Nodup)
    (hmr : V.my_rank.toNat < V.members.length) :
    (∀ V2, make_next_view V changes jinfo count = .ok V2 →
      V2.vid = V.vid + 1
      ∧ V2.members
          = V.members.filter (fun m =>
              !(decide (m ∈ (changes.take count).filter
                (fun c => decide (c ∈ V.members)))))
            ++ (changes.take count).filter (fun c => !(decide (c ∈ V.members)))
      ∧ V2.joined = (changes.take count).filter (fun c => !(decide (c ∈ V.members)))
      ∧ V2.departed.Perm
          ((changes.take count).filter (fun c => decide (c ∈ V.members))))
    ∧ (make_next_view V changes jinfo count
        = .error "Some other node reported that I failed"
      ↔ mnv_myID V ∈ (changes.take count).filter
          (fun c => decide (c ∈ V.members))) := by
  have hmembers2 : mnv_members2 V changes count
      = V.members.filter (fun m => !(decide (m ∈ changes.take count)))
        ++ (changes.take count).filter (fun c => !(decide (c ∈ V.members))) := by
    unfold mnv_members2
    rw [mnv_surviv_map_eq V changes count hnodup, mnv_joined_eq V changes count hcount]
  have hfiltconv : V.members.filter (fun m => !(decide (m ∈ changes.take count)))
      = V.members.filter (fun m =>
          !(decide (m ∈ (changes.take count).filter
            (fun c => decide (c ∈ V.members))))) := by
    apply List.filter_congr
    intro m hm
    by_cases h : m ∈ changes.take count
    · simp [h, List.mem_filter, hm]
    · simp [h, List.mem_filter]
  have hmyID_mem : mnv_myID V ∈ V.members := by
    unfold mnv_myID
    rw [List.getD_eq_getElem V.members 0 hmr]
    exact List.getElem_mem hmr
  have hmyID_not_join : mnv_myID V ∉ (changes.take count).filter
      (fun c => !(decide (c ∈ V.members))) := by
    intro hmem
    rw [List.mem_filter] at hmem
    simp only [Bool.not_eq_true', decide_eq_false_iff_not] at hmem
    exact hmem.2 hmyID_mem
  have hmem_iff : mnv_myID V ∈ mnv_members2 V changes count
      ↔ ¬ (mnv_myID V ∈ changes.take count) := by
    rw [hmembers2, List.mem_append]
    constructor
    · rintro (h | h)
      · rw [List.mem_filter] at h
        simpa using h.2
      · exact absurd h hmyID_not_join
    · intro h
      left
      rw [List.mem_filter]
      exact ⟨hmyID_mem, by simpa using h⟩
  have herr_iff : rank_of (mnv_members2 V changes count) (mnv_myID V) = -1
      ↔ mnv_myID V ∈ (changes.take count).filter
          (fun c => decide (c ∈ V.members)) := by
    rw [rank_of_eq_neg_one_iff, hmem_iff]
    simp [List.mem_filter, hmyID_mem]
  constructor
  · intro V2 hok
    unfold make_next_view at hok
    by_cases herr : rank_of (mnv_members2 V changes count) (mnv_myID V) = -1
    · rw [if_pos herr] at hok
      exact absurd hok (by simp)
    · rw [if_neg herr] at hok
      cases hok
      refine ⟨rfl, ?_, ?_, ?_⟩
      · show mnv_members2 V changes count = _
        rw [hmembers2, hfiltconv]
      · exact mnv_joined_eq V changes count hcount
      · show ((mnv_leave_ranks V changes count).map
            (fun r => V.members.getD r 0)).Perm _
        rw [mnv_leave_map_eq V changes count hnodup]
        apply (List.perm_ext_iff_of_nodup (hnodup.filter _) (hcc.filter _)).mpr
        intro a
        simp only [List.mem_filter, decide_eq_true_eq]
        tauto
  · unfold make_next_view
    by_cases herr : rank_of (mnv_members2 V changes count) (mnv_myID V) = -1
    · rw [if_pos herr]
      exact iff_of_true rfl (herr_iff.mp herr)
    · rw [if_neg herr]
      exact iff_of_false (by simp) (fun hc => herr (herr_iff.mpr hc))

/-- A three-member view used to instantiate `make_next_view_correct`. -/
def mnv_wit_view : CppView :=
  { vid := 5
    members := [10, 11, 12]
    member_ips_and_ports := [⟨1, 1, 1, 1, 1⟩, ⟨2, 2, 2, 2, 2⟩, ⟨3, 3, 3, 3, 3⟩]
    failed := [false, false, false]
    joined := []
    departed := []
    my_rank := 0
    next_unassigned_rank := 3 }

/-- Witness for `make_next_view_correct`: member 11 leaves and node 42
joins a three-member view. -/
theorem make_next_view_correct_witness :
    (∀ V2, make_next_view mnv_wit_view [11, 42] [⟨0, 0, 0, 0, 0⟩, ⟨7, 1, 2, 3, 4⟩] 2
        = .ok V2 →
      V2.vid = mnv_wit_view.vid + 1
      ∧ V2.members
          = mnv_wit_view.members.filter (fun m =>
              !(decide (m ∈ ([11, 42].take 2).filter
                (fun c => decide (c ∈ mnv_wit_view.members)))))
            ++ ([11, 42].take 2).filter (fun c => !(decide (c ∈ mnv_wit_view.members)))
      ∧ V2.joined = ([11, 42].take 2).filter
          (fun c => !(decide (c ∈ mnv_wit_view.members)))
      ∧ V2.departed.Perm
          (([11, 42].take 2).filter (fun c => decide (c ∈ mnv_wit_view.members))))
    ∧ (make_next_view mnv_wit_view [11, 42] [⟨0, 0, 0, 0, 0⟩, ⟨7, 1, 2, 3, 4⟩] 2
        = .error "Some other node reported that I failed"
      ↔ mnv_myID mnv_wit_view ∈ ([11, 42].take 2).filter
          (fun c => decide (c ∈ mnv_wit_view.members))) :=
  make_next_view_correct mnv_wit_view [11, 42] [⟨0, 0, 0, 0, 0⟩, ⟨7, 1, 2, 3, 4⟩] 2
    (by decide) (by decide) (by decide) (by decide)

/-! ## Ragged-edge cleanup (C1, C3) -/

/-- The SST columns used by ragged-edge cleanup, plus the view data it
reads: members (rank is the index), the view `failed[]` flags, and the
`num_received`, `global_min`, `global_min_ready` columns. -/
structure RaggedState where
  members          : List NodeId
  failed           : Nat → Bool
  num_received     : Nat → Nat → Int
  global_min       : Nat → Nat → Int
  global_min_ready : Nat → Nat → Bool

/-- The search loop of `leader_ragged_edge_cleanup`
(view_manager.cpp:1675-1683): the first shard member whose
`global_min_ready[rank][subgroup]` is set — the code checks no `failed`
flag here.  Returns that member's view rank. -/
def rg_find_ready (s : RaggedState) (subgroup_num : Nat)
    (shard_members : List NodeId) : Option Nat :=
  (shard_members.find? (fun nid =>
    s.global_min_ready (rank_of s.members nid).toNat subgroup_num)).map
    (fun nid => (rank_of s.members nid).toNat)

/-- The variant of the search loop that the claim describes: only
non-failed shard members are considered. -/
def rg_find_ready_claim (s : RaggedState) (subgroup_num : Nat)
    (shard_members : List NodeId) : Option Nat :=
  (shard_members.find? (fun nid =>
    !(s.failed (rank_of s.members nid).toNat)
      && s.global_min_ready (rank_of s.members nid).toNat subgroup_num)).map
    (fun nid => (rank_of s.members nid).toNat)

/-- `gmssst::set(global_min[dst] + offset, global_min[srcRank] + offset,
num_shard_senders)`: copy the `nsenders` cells starting at `offset` from
row `srcRank` into row `dst`. -/
def copy_global_min (s : RaggedState) (dst srcRank offset nsenders : Nat) :
    RaggedState :=
  { s with global_min := fun i j =>
      if i = dst ∧ offset ≤ j ∧ j < offset + nsenders then s.global_min srcRank j
      else s.global_min i j }

/-- The per-column minimum of the compute branch
(view_manager.cpp:1686-1697): start from the local row's
`num_received[col]` and take the minimum over the non-failed shard
members. -/
def shard_min (s : RaggedState) (myRank : Nat) (shard_members : List NodeId)
    (col : Nat) : Int :=
  shard_members.foldl
    (fun m nid =>
      if s.failed (rank_of s.members nid).toNat = false
          ∧ s.num_received (rank_of s.members nid).toNat col < m then
        s.num_received (rank_of s.members nid).toNat col
      else m)
    (s.num_received myRank col)

/-- Writing the computed minima into the local `global_min` cells. -/
def set_global_min_computed (s : RaggedState) (myRank offset nsenders : Nat)
    (shard_members : List NodeId) : RaggedState :=
  { s with global_min := fun i j =>
      if i = myRank ∧ offset ≤ j ∧ j < offset + nsenders then
        shard_min s myRank shard_members j
      else s.global_min i j }

/-- `gmssst::set(global_min_ready[myRank][subgroup_num], true)`. -/
def set_ready (s : RaggedState) (r sg : Nat) : RaggedState :=
  { s with global_min_ready := fun i j =>
      if i = r ∧ j = sg then true else s.global_min_ready i j }

/-- The `max_received_indices` vector built by
`ViewManager::deliver_in_order` (view_manager.cpp:1642-1655): cell `k`
is `global_min[shard_leader_rank][num_received_offset + k]`. -/
def deliver_in_order_indices (s : RaggedState) (shard_leader_rank offset nsenders : Nat) :
    List Int :=
  (List.range nsenders).map (fun k => s.global_min shard_leader_rank (offset + k))

/-- C++ `%` on signed integers (remainder of truncating division). -/
def cppMod (a b : Int) : Int := a.tmod b

theorem cppMod_eq_emod (a b : Int) (ha : 0 ≤ a) : cppMod a b = a % b := by
  match a, b, ha with
  | Int.ofNat n, Int.ofNat m, _ => rfl
  | Int.ofNat n, Int.negSucc m, _ => rfl

/-- The `max_seq_num` loop of `MulticastGroup::deliver_messages_upto`
(rpc_manager.h:883-887, the file carrying the `MulticastGroup` member
definitions): starting from the caller's current `delivered_num`, fold
`max` over `max_indices_for_senders[sender] * num_shard_senders + sender`
for each sender rank. -/
def max_seq_of (curr : Int) (maxIdx : List Int) (nsenders : Nat) : Int :=
  (List.range nsenders).foldl
    (fun m s => max m (maxIdx.getD s 0 * (nsenders : Int) + (s : Int)))
    curr

/-- The per-seq delivery test of `deliver_messages_upto`
(rpc_manager.h:891-896): seq is delivered unless
`seq / num_shard_senders > max_indices_for_senders[seq % num_shard_senders]`
(the `continue` branch). -/
def within_cut (maxIdx : List Int) (nsenders : Nat) (seq : Int) : Bool :=
  decide (cppDiv seq nsenders ≤ maxIdx.getD (cppMod seq nsenders).toNat 0)

/-- `MulticastGroup::deliver_messages_upto` (rpc_manager.h:875-923):
reads `curr_seq_num = delivered_num[member_index]`, computes
`max_seq_num` via `max_seq_of`, delivers in sequence order every seq in
`(curr_seq_num, max_seq_num]` whose per-sender index is within the cut
(skipping the rest with `continue`), and finally sets
`delivered_num[member_index] = max_seq_num`.  Returns the new
`delivered_num` and the list of delivered sequence numbers. -/
def deliver_messages_upto (curr : Int) (maxIdx : List Int) (nsenders : Nat) :
    Int × List Int :=
  let max_seq := max_seq_of curr maxIdx nsenders
  (max_seq,
   ((List.range (max_seq - curr).toNat).map (fun i => curr + 1 + (i : Int))).filter
     (within_cut maxIdx nsenders))

/-- The member's total delivered set for the dying view after the call:
everything at or below the old `delivered_num` (in ORDERED mode delivery
is gapless up to `delivered_num`) together with the seqs this call
delivers. -/
def view_prefix (curr : Int) (maxIdx : List Int) (nsenders : Nat) (seq : Int) : Bool :=
  decide (0 ≤ seq)
    && (decide (seq ≤ curr)
        || decide (seq ∈ (deliver_messages_upto curr maxIdx nsenders).2))

/-- `ViewManager::leader_ragged_edge_cleanup` (view_manager.cpp:1667):
copy an already-published `global_min` if any shard member has one,
otherwise compute the per-sender minima; set `global_min_ready`; publish;
then deliver in the implied order (reading the local row).  Returns the
new state and the `max_received_indices` vector passed to
`deliver_messages_upto`. -/
def leader_ragged_edge_cleanup (s : RaggedState) (subgroup_num offset : Nat)
    (shard_members : List NodeId) (nsenders myRank : Nat) :
    RaggedState × List Int :=
  let s1 :=
    match rg_find_ready s subgroup_num shard_members with
    | some node_rank => copy_global_min s myRank node_rank offset nsenders
    | none => set_global_min_computed s myRank offset nsenders shard_members
  let s2 := set_ready s1 myRank subgroup_num
  (s2, deliver_in_order_indices s2 myRank offset nsenders)

/-- The leader algorithm exactly as the claim states it: the copy source
must be a non-failed member. -/
def leader_ragged_edge_cleanup_claim (s : RaggedState) (subgroup_num offset : Nat)
    (shard_members : List NodeId) (nsenders myRank : Nat) :
    RaggedState × List Int :=
  let s1 :=
    match rg_find_ready_claim s subgroup_num shard_members with
    | some node_rank => copy_global_min s myRank node_rank offset nsenders
    | none => set_global_min_computed s myRank offset nsenders shard_members
  let s2 := set_ready s1 myRank subgroup_num
  (s2, deliver_in_order_indices s2 myRank offset nsenders)

/-- `ViewManager::follower_ragged_edge_cleanup` (view_manager.cpp:1716):
copy the shard leader's `global_min` cells into the local row, set the
ready flag, publish, and deliver in the same order (reading the shard
leader's row). -/
def follower_ragged_edge_cleanup (s : RaggedState) (subgroup_num shard_leader_rank offset : Nat)
    (shard_members : List NodeId) (nsenders myRank : Nat) :
    RaggedState × List Int :=
  let s1 := copy_global_min s myRank shard_leader_rank offset nsenders
  let s2 := set_ready s1 myRank subgroup_num
  (s2, deliver_in_order_indices s2 shard_leader_rank offset nsenders)

/-- Two shard members 10 (rank 0, the cleanup leader) and 20 (rank 1).
Member 20 has failed, but its frozen row still shows
`global_min_ready = true` with `global_min = 7`, while the non-failed
rows have received only up to 3. -/
def rg_cex_state : RaggedState :=
  { members := [10, 20]
    failed := fun r => r == 1
    num_received := fun r _ => if r = 0 then 3 else 5
    global_min := fun r _ => if r = 1 then 7 else 0
    global_min_ready := fun r _ => r == 1 }

/-- C3, counterexample: the code's search for a ready `global_min`
(view_manager.cpp:1678) does not check the `failed` flag, so the leader
inherits the trim of a failed member (7) where the claim prescribes the
computed minimum over non-failed members (3). -/
theorem leader_ragged_edge_cleanup_cex :
    (leader_ragged_edge_cleanup rg_cex_state 0 0 [10, 20] 1 0).2 = [7]
    ∧ (leader_ragged_edge_cleanup_claim rg_cex_state 0 0 [10, 20] 1 0).2 = [3]
    ∧ ([7] : List Int) ≠ [3] := by
  refine ⟨rfl, rfl, by decide⟩

theorem shard_min_foldl_le (s : RaggedState) (col : Nat) (l : List NodeId) (a : Int) :
    l.foldl
      (fun m nid =>
        if s.failed (rank_of s.members nid).toNat = false
            ∧ s.num_received (rank_of s.members nid).toNat col < m then
          s.num_received (rank_of s.members nid).toNat col
        else m)
      a ≤ a := by
  induction l generalizing a with
  | nil => simp
  | cons nid l ih =>
    simp only [List.foldl_cons]
    by_cases h : s.failed (rank_of s.members nid).toNat = false
        ∧ s.num_received (rank_of s.members nid).toNat col < a
    · rw [if_pos h]
      exact le_trans (ih _) (le_of_lt h.2)
    · rw [if_neg h]
      exact ih a

theorem shard_min_le_init (s : RaggedState) (myRank : Nat) (sm : List NodeId)
    (col : Nat) :
    shard_min s myRank sm col ≤ s.num_received myRank col :=
  shard_min_foldl_le s col sm _

theorem shard_min_foldl_le_member (s : RaggedState) (col : Nat) (l : List NodeId)
    (a : Int) (nid : NodeId) (hmem : nid ∈ l)
    (hnf : s.failed (rank_of s.members nid).toNat = false) :
    l.foldl
      (fun m nid =>
        if s.failed (rank_of s.members nid).toNat = false
            ∧ s.num_received (rank_of s.members nid).toNat col < m then
          s.num_received (rank_of s.members nid).toNat col
        else m)
      a ≤ s.num_received (rank_of s.members nid).toNat col := by
  induction l generalizing a with
  | nil => cases hmem
  | cons m l ih =>
    simp only [List.foldl_cons]
    rcases List.mem_cons.mp hmem with rfl | hmem2
    · by_cases h : s.failed (rank_of s.members nid).toNat = false
          ∧ s.num_received (rank_of s.members nid).toNat col < a
      · rw [if_pos h]
        exact shard_min_foldl_le s col l _
      · rw [if_neg h]
        have : a ≤ s.num_received (rank_of s.members nid).toNat col := by
          rcases not_and_or.mp h with hc | hc
        
          · exact absurd hnf hc
          · omega
        exact le_trans (shard_min_foldl_le s col l a) this
    · by_cases h : s.failed (rank_of s.members m).toNat = false
          ∧ s.num_received (rank_of s.members m).toNat col < a
      · rw [if_pos h]
        exact ih _ hmem2
      · rw [if_neg h]
        exact ih a hmem2

theorem shard_min_le_member (s : RaggedState) (myRank : Nat) (sm : List NodeId)
    (col : Nat) (nid : NodeId) (hmem : nid ∈ sm)
    (hnf : s.failed (rank_of s.members nid).toNat = false) :
    shard_min s myRank sm col ≤ s.num_received (rank_of s.members nid).toNat col :=
  shard_min_foldl_le_member s col sm _ nid hmem hnf

theorem shard_min_foldl_attained (s : RaggedState) (col : Nat) (l : List NodeId)
    (a : Int) :
    l.foldl
      (fun m nid =>
        if s.failed (rank_of s.members nid).toNat = false
            ∧ s.num_received (rank_of s.members nid).toNat col < m then
          s.num_received (rank_of s.members nid).toNat col
        else m)
      a = a
    ∨ ∃ nid ∈ l, s.failed (rank_of s.members nid).toNat = false
        ∧ l.foldl
          (fun m nid =>
            if s.failed (rank_of s.members nid).toNat = false
                ∧ s.num_received (rank_of s.members nid).toNat col < m then
              s.num_received (rank_of s.members nid).toNat col
            else m)
          a = s.num_received (rank_of s.members nid).toNat col := by
  induction l generalizing a with
  | nil => left; rfl
  | cons m l ih =>
    simp only [List.foldl_cons]
    by_cases h : s.failed (rank_of s.members m).toNat = false
        ∧ s.num_received (rank_of s.members m).toNat col < a
    · rw [if_pos h]
      rcases ih (s.num_received (rank_of s.members m).toNat col) with h1 | ⟨nid, hnid, hnf, h1⟩
      · right
        exact ⟨m, List.mem_cons_self m l, h.1, h1⟩
      · right
        exact ⟨nid, List.mem_cons_of_mem m hnid, hnf, h1⟩
    · rw [if_neg h]
      rcases ih a with h1 | ⟨nid, hnid, hnf, h1⟩
      · left
        exact h1
      · right
        exact ⟨nid, List.mem_cons_of_mem m hnid, hnf, h1⟩

theorem shard_min_attained (s : RaggedState) (myRank : Nat) (sm : List NodeId)
    (col : Nat) :
    shard_min s myRank sm col = s.num_received myRank col
    ∨ ∃ nid ∈ sm, s.failed (rank_of s.members nid).toNat = false
        ∧ shard_min s myRank sm col
            = s.num_received (rank_of s.members nid).toNat col :=
  shard_min_foldl_attained s col sm _

/-- C3 (amended): the cleanup leader first looks for ANY shard member —
failed or not — whose `global_min_ready` flag for the subgroup is true,
and if one exists copies that member's `global_min` entries for the
shard's sender columns into its own row; only if no shard member at all
has the flag does it compute each `global_min[s]` as the minimum of
`num_received[offset+s]` over the non-failed shard members together with
its own row; it then sets `global_min_ready` to true, and the delivered
cut is exactly the row it just wrote. -/
theorem leader_ragged_edge_cleanup_amended (s : RaggedState) (sg offset : Nat)
    (shard_members : List NodeId) (nsenders myRank : Nat) :
    ((leader_ragged_edge_cleanup s sg offset shard_members nsenders myRank).1.global_min_ready
        myRank sg = true)
    ∧ ((rg_find_ready s sg shard_members).isSome
        ↔ ∃ nid ∈ shard_members,
            s.global_min_ready (rank_of s.members nid).toNat sg = true)
    ∧ (∀ nr, rg_find_ready s sg shard_members = some nr →
        ∀ k, k < nsenders →
          (leader_ragged_edge_cleanup s sg offset shard_members nsenders myRank).1.global_min
              myRank (offset + k)
            = s.global_min nr (offset + k))
    ∧ (rg_find_ready s sg shard_members = none →
        ∀ k, k < nsenders →
          (leader_ragged_edge_cleanup s sg offset shard_members nsenders myRank).1.global_min
              myRank (offset + k)
            = shard_min s myRank shard_members (offset + k)
          ∧ shard_min s myRank shard_members (offset + k)
              ≤ s.num_received myRank (offset + k)
          ∧ (∀ nid ∈ shard_members,
              s.failed (rank_of s.members nid).toNat = false →
              shard_min s myRank shard_members (offset + k)
                ≤ s.num_received (rank_of s.members nid).toNat (offset + k))
          ∧ (shard_min s myRank shard_members (offset + k)
                = s.num_received myRank (offset + k)
             ∨ ∃ nid ∈ shard_members,
                 s.failed (rank_of s.members nid).toNat = false
                 ∧ shard_min s myRank shard_members (offset + k)
                     = s.num_received (rank_of s.members nid).toNat (offset + k)))
    ∧ ((leader_ragged_edge_cleanup s sg offset shard_members nsenders myRank).2
        = (List.range nsenders).map (fun k =>
            (leader_ragged_edge_cleanup s sg offset shard_members nsenders myRank).1.global_min
              myRank (offset + k))) := by
  refine ⟨?_, ?_, ?_, ?_, ?_⟩
  · cases h : rg_find_ready s sg shard_members <;>
      simp [leader_ragged_edge_cleanup, h, set_ready]
  · simp [rg_find_ready, List.find?_isSome]
  · intro nr hnr k hk
    simp only [leader_ragged_edge_cleanup, hnr, set_ready, copy_global_min]
    have hcond : True ∧ offset ≤ offset + k ∧ offset + k < offset + nsenders :=
      ⟨trivial, by omega, by omega⟩
    rw [if_pos hcond]
  · intro hnone k hk
    refine ⟨?_, shard_min_le_init s myRank shard_members (offset + k),
      fun nid hmem hnf => shard_min_le_member s myRank shard_members (offset + k) nid hmem hnf,
      shard_min_attained s myRank shard_members (offset + k)⟩
    simp only [leader_ragged_edge_cleanup, hnone, set_ready, set_global_min_computed]
    have hcond : True ∧ offset ≤ offset + k ∧ offset + k < offset + nsenders :=
      ⟨trivial, by omega, by omega⟩
    rw [if_pos hcond]
  · cases h : rg_find_ready s sg shard_members <;>
      simp [leader_ragged_edge_cleanup, h, deliver_in_order_indices]

/-- Witness for `leader_ragged_edge_cleanup_amended` at the concrete
two-member state: the ready flag is set and the copy branch inherits the
ready member's cell. -/
theorem leader_ragged_edge_cleanup_amended_witness :
    ((leader_ragged_edge_cleanup rg_cex_state 0 0 [10, 20] 1 0).1.global_min_ready 0 0 = true)
    ∧ ((leader_ragged_edge_cleanup rg_cex_state 0 0 [10, 20] 1 0).1.global_min 0 (0 + 0)
        = rg_cex_state.global_min 1 (0 + 0)) :=
  ⟨(leader_ragged_edge_cleanup_amended rg_cex_state 0 0 [10, 20] 1 0).1,
   (leader_ragged_edge_cleanup_amended rg_cex_state 0 0 [10, 20] 1 0).2.2.1 1 rfl 0
     (by decide)⟩

/-- The follower phase of ragged-edge cleanup as run by
`global_min_ready_continuation` (view_manager.cpp:974-998): each
non-leader shard member in turn runs `follower_ragged_edge_cleanup` on
the shared state.  Returns the final state and each follower's
`max_received_indices` vector. -/
def run_followers (sg shard_leader_rank offset : Nat) (shard_members : List NodeId)
    (nsenders : Nat) : List Nat → RaggedState → RaggedState × List (Nat × List Int)
  | [], s => (s, [])
  | f :: fs, s =>
    let r := follower_ragged_edge_cleanup s sg shard_leader_rank offset
      shard_members nsenders f
    let rest := run_followers sg shard_leader_rank offset shard_members nsenders fs r.1
    (rest.1, (f, r.2) :: rest.2)

theorem follower_global_min (s : RaggedState) (sg L offset : Nat)
    (sm : List NodeId) (n f i j : Nat) :
    (follower_ragged_edge_cleanup s sg L offset sm n f).1.global_min i j
      = if i = f ∧ offset ≤ j ∧ j < offset + n then s.global_min L j
        else s.global_min i j := rfl

theorem follower_output (s : RaggedState) (sg L offset : Nat)
    (sm : List NodeId) (n f : Nat) :
    (follower_ragged_edge_cleanup s sg L offset sm n f).2
      = (List.range n).map (fun k =>
          (follower_ragged_edge_cleanup s sg L offset sm n f).1.global_min
            L (offset + k)) := rfl

theorem leader_output_eq (s : RaggedState) (sg offset : Nat) (sm : List NodeId)
    (n myRank : Nat) :
    (leader_ragged_edge_cleanup s sg offset sm n myRank).2
      = deliver_in_order_indices
          (leader_ragged_edge_cleanup s sg offset sm n myRank).1 myRank offset n := by
  cases h : rg_find_ready s sg sm <;> simp [leader_ragged_edge_cleanup, h]

theorem run_followers_spec (sg L offset : Nat) (sm : List NodeId) (n : Nat)
    (followers : List Nat) (s : RaggedState) (hf : ∀ f ∈ followers, f ≠ L) :
    (∀ r j, r ∉ followers →
      (run_followers sg L offset sm n followers s).1.global_min r j
        = s.global_min r j)
    ∧ (∀ p ∈ (run_followers sg L offset sm n followers s).2,
        p.2 = deliver_in_order_indices s L offset n)
    ∧ (∀ f ∈ followers, ∀ k, k < n →
        (run_followers sg L offset sm n followers s).1.global_min f (offset + k)
          = s.global_min L (offset + k)) := by
  induction followers generalizing s with
  | nil =>
    refine ⟨fun r j _ => rfl, ?_, ?_⟩
    · intro p hp
      cases hp
    · intro f hfmem
      cases hfmem
  | cons g gs ih =>
    have hgL : g ≠ L := hf g (List.mem_cons_self g gs)
    have hf2 : ∀ f ∈ gs, f ≠ L := fun f hm => hf f (List.mem_cons_of_mem g hm)
    set s2 := (follower_ragged_edge_cleanup s sg L offset sm n g).1 with hs2
    have hleader_row : ∀ j, s2.global_min L j = s.global_min L j := by
      intro j
      rw [hs2, follower_global_min]
      rw [if_neg (by
        rintro ⟨hLg, -, -⟩
        exact hgL hLg.symm)]
    obtain ⟨ih1, ih2, ih3⟩ := ih s2 hf2
    have hrun : run_followers sg L offset sm n (g :: gs) s
        = ((run_followers sg L offset sm n gs s2).1,
          (g, (follower_ragged_edge_cleanup s sg L offset sm n g).2)
            :: (run_followers sg L offset sm n gs s2).2) := rfl
    refine ⟨?_, ?_, ?_⟩
    · intro r j hr
      have hrg : r ≠ g := fun hc => hr (hc ▸ List.mem_cons_self g gs)
      have hrgs : r ∉ gs := fun hc => hr (List.mem_cons_of_mem g hc)
      rw [hrun]
      rw [ih1 r j hrgs, hs2, follower_global_min,
        if_neg (by rintro ⟨hc, -, -⟩; exact hrg hc)]
    · intro p hp
      rw [hrun] at hp
      rcases List.mem_cons.mp hp with rfl | hp2
      · show (follower_ragged_edge_cleanup s sg L offset sm n g).2 = _
        rw [follower_output]
        unfold deliver_in_order_indices
        apply List.map_congr_left
        intro k _
        exact hleader_row (offset + k)
      · rw [ih2 p hp2]
        unfold deliver_in_order_indices
        apply List.map_congr_left
        intro k _
        exact hleader_row (offset + k)
    · intro f hfmem k hk
      rw [hrun]
      by_cases hfgs : f ∈ gs
      · rw [ih3 f hfgs k hk]
        exact hleader_row (offset + k)
      · have hfg : f = g := by
          rcases List.mem_cons.mp hfmem with h1 | h1
          · exact h1
          · exact absurd h1 hfgs
        subst hfg
        rw [ih1 f (offset + k) hfgs, hs2, follower_global_min,
          if_pos ⟨rfl, by omega, by omega⟩]

theorem foldl_max_ge_init (t : Nat → Int) (l : List Nat) (a : Int) :
    a ≤ l.foldl (fun m s => max m (t s)) a := by
  induction l generalizing a with
  | nil => exact le_refl a
  | cons s l ih => exact le_trans (le_max_left a (t s)) (ih (max a (t s)))

theorem foldl_max_ge_elem (t : Nat → Int) (l : List Nat) (a : Int) (s : Nat)
    (hs : s ∈ l) : t s ≤ l.foldl (fun m u => max m (t u)) a := by
  induction l generalizing a with
  | nil => cases hs
  | cons hd l ih =>
    rcases List.mem_cons.mp hs with rfl | hmem
    · exact le_trans (le_max_right a (t s)) (foldl_max_ge_init t l (max a (t s)))
    · exact ih (max a (t hd)) hmem

theorem foldl_max_init (t : Nat → Int) (l : List Nat) (a b : Int) :
    l.foldl (fun m s => max m (t s)) (max a b)
      = max a (l.foldl (fun m s => max m (t s)) b) := by
  induction l generalizing b with
  | nil => rfl
  | cons s l ih =>
    show l.foldl (fun m s => max m (t s)) (max (max a b) (t s)) = _
    rw [max_assoc, ih (max b (t s))]
    rfl

theorem le_max_seq_of (a : Int) (maxIdx : List Int) (ns : Nat) :
    a ≤ max_seq_of a maxIdx ns :=
  foldl_max_ge_init _ _ _

theorem mem_deliver_upto (curr : Int) (maxIdx : List Int) (ns : Nat) (seq : Int) :
    seq ∈ (deliver_messages_upto curr maxIdx ns).2
      ↔ curr < seq ∧ seq ≤ max_seq_of curr maxIdx ns
          ∧ within_cut maxIdx ns seq = true := by
  have hle : curr ≤ max_seq_of curr maxIdx ns := le_max_seq_of curr maxIdx ns
  unfold deliver_messages_upto
  simp only [List.mem_filter, List.mem_map, List.mem_range, List.bind_eq_flatMap,
    List.mem_flatMap, List.mem_pure]
  constructor
  · rintro ⟨⟨i, ⟨a, ha, rfl⟩, rfl⟩, hw⟩
    exact ⟨by omega, by omega, hw⟩
  · rintro ⟨h1, h2, hw⟩
    exact ⟨⟨((seq - curr - 1).toNat : Int), ⟨(seq - curr - 1).toNat, by omega, rfl⟩,
      by omega⟩, hw⟩

/-- The delivery semantics of `deliver_messages_upto` made canonical:
for any caller whose previously delivered seqs all lie within the cut
(the protocol invariant: `delivered_num` never exceeds what every member
has received, hence never exceeds `global_min`), the call advances
`delivered_num` to the cut's maximum seq — independent of the caller's
old `delivered_num` — and the caller's total delivered set becomes
exactly the seqs within the cut, again independent of the old
`delivered_num`. -/
theorem deliver_messages_upto_canonical (curr : Int) (maxIdx : List Int) (ns : Nat)
    (hns : 0 < ns) (hcurr : -1 ≤ curr)
    (hpre : ∀ seq : Int, 0 ≤ seq → seq ≤ curr → within_cut maxIdx ns seq = true) :
    (deliver_messages_upto curr maxIdx ns).1 = max_seq_of (-1) maxIdx ns
    ∧ ∀ seq : Int, view_prefix curr maxIdx ns seq
        = (decide (0 ≤ seq) && decide (seq ≤ max_seq_of (-1) maxIdx ns)
           && within_cut maxIdx ns seq) := by
  have hns' : (0 : Int) < (ns : Int) := by exact_mod_cast hns
  have hmax_le : curr ≤ max_seq_of (-1) maxIdx ns := by
    rcases lt_or_le curr 0 with hneg | hpos
    · have hm1 : curr = -1 := by omega
      rw [hm1]
      exact le_max_seq_of (-1) maxIdx ns
    · have hw := hpre curr hpos (le_refl curr)
      unfold within_cut at hw
      rw [decide_eq_true_eq] at hw
      rw [cppDiv_eq_ediv _ _ hpos, cppMod_eq_emod _ _ hpos] at hw
      have hm0 : 0 ≤ curr % (ns : Int) := Int.emod_nonneg curr (by omega)
      have hmlt : curr % (ns : Int) < (ns : Int) := Int.emod_lt_of_pos curr hns'
      have hmm : (((curr % (ns : Int)).toNat : Nat) : Int) = curr % (ns : Int) :=
        Int.toNat_of_nonneg hm0
      have hdecomp : curr = curr / (ns : Int) * (ns : Int) + curr % (ns : Int) := by
        have h1 := Int.ediv_add_emod curr (ns : Int)
        have h2 : curr / (ns : Int) * (ns : Int) = (ns : Int) * (curr / (ns : Int)) :=
          mul_comm _ _
        linarith
      have hmul : curr / (ns : Int) * (ns : Int)
          ≤ maxIdx.getD (curr % (ns : Int)).toNat 0 * (ns : Int) :=
        mul_le_mul_of_nonneg_right hw (le_of_lt hns')
      have hterm : curr ≤ maxIdx.getD (curr % (ns : Int)).toNat 0 * (ns : Int)
          + (((curr % (ns : Int)).toNat : Nat) : Int) := by
        rw [hmm]
        omega
      have hmem : (curr % (ns : Int)).toNat ∈ List.range ns :=
        List.mem_range.mpr (by omega)
      exact le_trans hterm
        (foldl_max_ge_elem (fun s => maxIdx.getD s 0 * (ns : Int) + (s : Int))
          (List.range ns) (-1) ((curr % (ns : Int)).toNat) hmem)
  have hmax_eq : max_seq_of curr maxIdx ns = max_seq_of (-1) maxIdx ns := by
    have h1 : max curr (-1) = curr := max_eq_left hcurr
    calc max_seq_of curr maxIdx ns
        = max_seq_of (max curr (-1)) maxIdx ns := by rw [h1]
      _ = max curr (max_seq_of (-1) maxIdx ns) :=
          foldl_max_init (fun s => maxIdx.getD s 0 * (ns : Int) + (s : Int))
            (List.range ns) curr (-1)
      _ = max_seq_of (-1) maxIdx ns := max_eq_right hmax_le
  refine ⟨hmax_eq, ?_⟩
  intro seq
  unfold view_prefix
  rw [Bool.eq_iff_iff]
  simp only [Bool.and_eq_true, Bool.or_eq_true, decide_eq_true_eq, mem_deliver_upto]
  constructor
  · rintro ⟨h0, hle | hmem⟩
    · exact ⟨⟨h0, le_trans hle hmax_le⟩, hpre seq h0 hle⟩
    · obtain ⟨hlt, hle2, hw⟩ := hmem
      exact ⟨⟨h0, hmax_eq ▸ hle2⟩, hw⟩
  · rintro ⟨⟨h0, hlecut⟩, hw⟩
    by_cases hc : seq ≤ curr
    · exact ⟨h0, Or.inl hc⟩
    · exact ⟨h0, Or.inr ⟨not_le.mp hc, hmax_eq ▸ hlecut, hw⟩⟩

/-- C1: after the shard leader finishes its ragged-edge cleanup, every
(non-leader) shard member that runs `follower_ragged_edge_cleanup`
copies the leader's `global_min` entries for the shard's sender columns
into its own row and delivers up to exactly those indices: all followers
produce the same `max_received_indices` vector as the leader, every
follower's row ends identical to the leader's in those columns, and —
since each member passes that common vector to
`deliver_messages_upto` — every member whose previously delivered seqs
lie within the agreed cut (the protocol invariant) ends with the same
`delivered_num` and the same total delivered prefix for the dying view,
regardless of its own prior `delivered_num`. -/
theorem ragged_cleanup_identical_prefix (s : RaggedState) (sg offset : Nat)
    (sm : List NodeId) (n L : Nat) (followers : List Nat)
    (hf : ∀ f ∈ followers, f ≠ L) :
    (∀ p ∈ (run_followers sg L offset sm n followers
        (leader_ragged_edge_cleanup s sg offset sm n L).1).2,
      p.2 = (leader_ragged_edge_cleanup s sg offset sm n L).2)
    ∧ (∀ f ∈ followers, ∀ k, k < n →
        (run_followers sg L offset sm n followers
            (leader_ragged_edge_cleanup s sg offset sm n L).1).1.global_min f (offset + k)
          = (leader_ragged_edge_cleanup s sg offset sm n L).1.global_min L (offset + k))
    ∧ (∀ curr : Int, 0 < n → -1 ≤ curr →
        (∀ seq : Int, 0 ≤ seq → seq ≤ curr →
          within_cut (leader_ragged_edge_cleanup s sg offset sm n L).2 n seq = true) →
        (deliver_messages_upto curr (leader_ragged_edge_cleanup s sg offset sm n L).2 n).1
            = max_seq_of (-1) (leader_ragged_edge_cleanup s sg offset sm n L).2 n
        ∧ ∀ seq : Int,
            view_prefix curr (leader_ragged_edge_cleanup s sg offset sm n L).2 n seq
              = (decide (0 ≤ seq)
                 && decide (seq ≤ max_seq_of (-1)
                      (leader_ragged_edge_cleanup s sg offset sm n L).2 n)
                 && within_cut (leader_ragged_edge_cleanup s sg offset sm n L).2 n seq)) := by
  obtain ⟨h1, h2, h3⟩ := run_followers_spec sg L offset sm n followers
    (leader_ragged_edge_cleanup s sg offset sm n L).1 hf
  have hout : ∀ p ∈ (run_followers sg L offset sm n followers
      (leader_ragged_edge_cleanup s sg offset sm n L).1).2,
      p.2 = (leader_ragged_edge_cleanup s sg offset sm n L).2 := by
    intro p hp
    rw [h2 p hp, leader_output_eq]
  refine ⟨hout, ?_, ?_⟩
  · intro f hfmem k hk
    exact h3 f hfmem k hk
  · intro curr hn hcurr hpre
    exact deliver_messages_upto_canonical curr
      (leader_ragged_edge_cleanup s sg offset sm n L).2 n hn hcurr hpre

/-- Witness for `ragged_cleanup_identical_prefix` at the concrete
two-member state: follower rank 1 inherits the leader's vector, and a
member starting from `delivered_num = -1` advances to the cut's maximum
seq with the canonical prefix (checked at seq 7). -/
theorem ragged_cleanup_identical_prefix_witness :
    (∀ p ∈ (run_followers 0 0 0 [10, 20] 1 [1]
        (leader_ragged_edge_cleanup rg_cex_state 0 0 [10, 20] 1 0).1).2,
      p.2 = (leader_ragged_edge_cleanup rg_cex_state 0 0 [10, 20] 1 0).2)
    ∧ (deliver_messages_upto (-1)
          (leader_ragged_edge_cleanup rg_cex_state 0 0 [10, 20] 1 0).2 1).1
        = max_seq_of (-1) (leader_ragged_edge_cleanup rg_cex_state 0 0 [10, 20] 1 0).2 1
    ∧ view_prefix (-1) (leader_ragged_edge_cleanup rg_cex_state 0 0 [10, 20] 1 0).2 1 7
        = (decide ((0 : Int) ≤ 7)
           && decide ((7 : Int) ≤ max_seq_of (-1)
                (leader_ragged_edge_cleanup rg_cex_state 0 0 [10, 20] 1 0).2 1)
           && within_cut (leader_ragged_edge_cleanup rg_cex_state 0 0 [10, 20] 1 0).2 1 7) := by
  have h := ragged_cleanup_identical_prefix rg_cex_state 0 0 [10, 20] 1 0 [1] (by decide)
  have h3 := h.2.2 (-1) (by decide) (by decide)
    (fun seq h1 h2 => absurd (le_trans h1 h2) (by decide))
  exact ⟨h.1, h3.1, h3.2 7⟩

/-! ## `make_subgroup_maps` and `derive_subgroup_settings` (C8, C10) -/

/-- `Mode` of a `SubView` (ORDERED / UNORDERED). -/
inductive SgMode where
  | ordered
  | unordered
  deriving Repr, DecidableEq

/-- The `SubView` fields read by `make_subgroup_maps` /
`derive_subgroup_settings` (the class lives in `view.h`, outside the
sources): shard members, the parallel `is_sender` vector, the mode, and
the mutable `my_rank` both functions assign. -/
structure SubViewL where
  members   : List NodeId
  is_sender : List Bool
  mode      : SgMode
  my_rank   : Int
  deriving Repr, DecidableEq

/-- Modelled from the spec: `SubView::num_senders` (view.cpp is not
among the sources) counts the true entries of `is_sender`. -/
def SubViewL.num_senders (sv : SubViewL) : Nat :=
  (sv.is_sender.filter id).length

/-- Modelled from the spec: `SubView::sender_rank_of(rank)` (view.cpp is
not among the sources) gives the rank among the senders, `-1` when the
member at `rank` is not a sender. -/
def SubViewL.sender_rank_of (sv : SubViewL) (rank : Int) : Int :=
  if 0 ≤ rank ∧ sv.is_sender.getD rank.toNat false = true then
    ((sv.is_sender.take rank.toNat).filter id).length
  else -1

/-- The per-subgroup settings record stored into the
`subgroup_settings` map by both functions (view_manager.cpp:1403 and
1461). -/
structure SubgroupSettingsL where
  shard_num           : Nat
  shard_rank          : Nat
  members             : List NodeId
  senders             : List Bool
  sender_rank         : Int
  num_received_offset : Nat
  mode                : SgMode
  deriving Repr, DecidableEq

/-- The per-shard loop of `make_subgroup_maps`
(view_manager.cpp:1390-1428): update the running `max_shard_senders`
(note the source assigns `shard_size`, not `num_shard_senders`), set
`my_rank` in the SubView, and record the settings of the shard the local
node is in.  (The `joined`/`departed` initialisation from `prev_view` is
omitted: it writes fields no claim reads.)  Accumulates the rewritten
shard views, the running maximum, and the settings option. -/
def msm_shards (myID : NodeId) (offset : Nat) :
    List SubViewL → Nat → Nat → Option SubgroupSettingsL →
    List SubViewL × Nat × Option SubgroupSettingsL
  | [], _, maxAcc, setAcc => ([], maxAcc, setAcc)
  | sv :: rest, shard_num, maxAcc, setAcc =>
    let maxAcc2 := if sv.num_senders > maxAcc then sv.members.length else maxAcc
    let myr := rank_of sv.members myID
    let sv2 := { sv with my_rank := myr }
    let setAcc2 :=
      if myr ≠ -1 then
        some { shard_num := shard_num
               shard_rank := myr.toNat
               members := sv.members
               senders := sv.is_sender
               sender_rank := sv2.sender_rank_of myr
               num_received_offset := offset
               mode := sv.mode }
      else setAcc
    let r := msm_shards myID offset rest (shard_num + 1) maxAcc2 setAcc2
    (sv2 :: r.1, r.2)

/-- The per-shard loop of `derive_subgroup_settings`
(view_manager.cpp:1448-1470), which is statement-for-statement the same
as the one in `make_subgroup_maps`. -/
def dss_shards (myID : NodeId) (offset : Nat) :
    List SubViewL → Nat → Nat → Option SubgroupSettingsL →
    List SubViewL × Nat × Option SubgroupSettingsL
  | [], _, maxAcc, setAcc => ([], maxAcc, setAcc)
  | sv :: rest, shard_num, maxAcc, setAcc =>
    let maxAcc2 := if sv.num_senders > maxAcc then sv.members.length else maxAcc
    let myr := rank_of sv.members myID
    let sv2 := { sv with my_rank := myr }
    let setAcc2 :=
      if myr ≠ -1 then
        some { shard_num := shard_num
               shard_rank := myr.toNat
               members := sv.members
               senders := sv.is_sender
               sender_rank := sv2.sender_rank_of myr
               num_received_offset := offset
               mode := sv.mode }
      else setAcc
    let r := dss_shards myID offset rest (shard_num + 1) maxAcc2 setAcc2
    (sv2 :: r.1, r.2)

/-- The per-subgroup loop of `make_subgroup_maps` for one subgroup type
(view_manager.cpp:1384-1435): each subgroup gets the next sequential id,
its shards are processed, the offset advances by `max_shard_senders`.
Returns (processed shard lists, their ids, final offset, new settings
entries). -/
def process_type (myID : NodeId) :
    List (List SubViewL) → Nat → Nat →
    List (List SubViewL) × List Nat × Nat × List (Nat × SubgroupSettingsL)
  | [], _, offset => ([], [], offset, [])
  | shards :: rest, id, offset =>
    let r := msm_shards myID offset shards 0 0 none
    let rec_ := process_type myID rest (id + 1) (offset + r.2.1)
    (r.1 :: rec_.1, id :: rec_.2.1, rec_.2.2.1,
      (match r.2.2 with
       | some st => [(id, st)]
       | none => []) ++ rec_.2.2.2)

/-- The result record of `make_subgroup_maps`: the returned
`num_received_size`, the fields it writes into the view, the settings
map, and the restored-or-threaded `next_unassigned_rank`. -/
structure SubgroupMapsResult where
  num_received_size         : Nat
  subgroup_shard_views      : List (List SubViewL)
  subgroup_ids_by_type_id   : List (List Nat)
  settings                  : List (Nat × SubgroupSettingsL)
  is_adequately_provisioned : Bool
  next_unassigned_rank      : Int
  deriving Repr, DecidableEq

/-- The cleared result returned when the membership function throws
`subgroup_provisioning_exception` (view_manager.cpp:1373-1381). -/
def msm_fail (init_rank : Int) : SubgroupMapsResult :=
  { num_received_size := 0
    subgroup_shard_views := []
    subgroup_ids_by_type_id := []
    settings := []
    is_adequately_provisioned := false
    next_unassigned_rank := init_rank }

/-- The per-type loop of `ViewManager::make_subgroup_maps`
(view_manager.cpp:1358-1438).  `f` is the user's subgroup membership
function for the type at each index; it reads and advances
`next_unassigned_rank` and returns `none` when it throws the
provisioning exception, upon which everything computed so far is
discarded and `next_unassigned_rank` restored to its initial value. -/
def msm_go (myID : NodeId) (f : Nat → Int → Option (List (List SubViewL) × Int))
    (init_rank : Int) :
    List Nat → Int → Nat → List (List SubViewL) → List (List Nat) →
    List (Nat × SubgroupSettingsL) → SubgroupMapsResult
  | [], nur, offset, views, ids, settings =>
    { num_received_size := offset
      subgroup_shard_views := views
      subgroup_ids_by_type_id := ids
      settings := settings
      is_adequately_provisioned := true
      next_unassigned_rank := nur }
  | t :: ts, nur, offset, views, ids, settings =>
    match f t nur with
    | none => msm_fail init_rank
    | some (layout, nur2) =>
      let r := process_type myID layout views.length offset
      msm_go myID f init_rank ts nur2 r.2.2.1 (views ++ r.1)
        (ids ++ [r.2.1]) (settings ++ r.2.2.2)

/-- `ViewManager::make_subgroup_maps`, starting from the clean view
state (`subgroup_shard_views` and `subgroup_ids_by_type_id` cleared at
view_manager.cpp:1363-1364). -/
def make_subgroup_maps (myID : NodeId)
    (f : Nat → Int → Option (List (List SubViewL) × Int))
    (numTypes : Nat) (init_rank : Int) : SubgroupMapsResult :=
  msm_go myID f init_rank (List.range numTypes) init_rank 0 [] [] []

/-- The per-subgroup loop of `ViewManager::derive_subgroup_settings`
(view_manager.cpp:1440-1475): iterate the received view's
`subgroup_shard_views` by subgroup id, processing each exactly as
`make_subgroup_maps` does.  Returns (rewritten shard views, total
`num_received` size, settings entries). -/
def dss_go (myID : NodeId) :
    List (List SubViewL) → Nat → Nat →
    List (List SubViewL) × Nat × List (Nat × SubgroupSettingsL)
  | [], _, offset => ([], offset, [])
  | shards :: rest, id, offset =>
    let r := dss_shards myID offset shards 0 0 none
    let rec_ := dss_go myID rest (id + 1) (offset + r.2.1)
    (r.1 :: rec_.1, rec_.2.1,
      (match r.2.2 with
       | some st => [(id, st)]
       | none => []) ++ rec_.2.2)

/-- `ViewManager::derive_subgroup_settings` applied to a received
serialized view. -/
def derive_subgroup_settings (myID : NodeId) (views : List (List SubViewL)) :
    List (List SubViewL) × Nat × List (Nat × SubgroupSettingsL) :=
  dss_go myID views 0 0

/-- The branch of `ViewManager::terminate_epoch`
(view_manager.cpp:857-888) that decides the epoch's fate after
`make_subgroup_maps`: an inadequately provisioned next view re-registers
the steady-state predicates and waits for a further committed change
(stall); otherwise the installation proceeds with the computed settings. -/
inductive EpochDecision where
  | stall
  | install (num_received_size : Nat) (settings : List (Nat × SubgroupSettingsL))
  deriving Repr, DecidableEq

def terminate_epoch_step (myID : NodeId)
    (f : Nat → Int → Option (List (List SubViewL) × Int))
    (numTypes : Nat) (init_rank : Int) : EpochDecision :=
  let res := make_subgroup_maps myID f numTypes init_rank
  if res.is_adequately_provisioned then
    .install res.num_received_size res.settings
  else .stall

/-- The two per-shard loops are statement-for-statement identical. -/
theorem msm_shards_eq_dss_shards (myID : NodeId) (offset : Nat)
    (l : List SubViewL) (k m : Nat) (s0 : Option SubgroupSettingsL) :
    msm_shards myID offset l k m s0 = dss_shards myID offset l k m s0 := by
  induction l generalizing k m s0 with
  | nil => rfl
  | cons sv rest ih =>
    simp only [msm_shards, dss_shards]
    rw [ih]

/-- Re-running the per-shard loop on its own output reproduces it: the
loop only rewrites `my_rank`, which is recomputed to the same value. -/
theorem msm_shards_idem (myID : NodeId) (offset : Nat)
    (l : List SubViewL) (k m : Nat) (s0 : Option SubgroupSettingsL) :
    msm_shards myID offset (msm_shards myID offset l k m s0).1 k m s0
      = msm_shards myID offset l k m s0 := by
  induction l generalizing k m s0 with
  | nil => rfl
  | cons sv rest ih =>
    simp only [msm_shards]
    exact congrArg (fun p => ({ sv with my_rank := rank_of sv.members myID } :: p.1, p.2))
      (ih (k + 1) _ _)

/-- Re-deriving settings from the shard views written by
`process_type` reproduces its offsets and settings. -/
theorem dss_go_process_type (myID : NodeId) (layout : List (List SubViewL))
    (id offset : Nat) :
    dss_go myID (process_type myID layout id offset).1 id offset
      = ((process_type myID layout id offset).1,
         (process_type myID layout id offset).2.2.1,
         (process_type myID layout id offset).2.2.2) := by
  induction layout generalizing id offset with
  | nil => rfl
  | cons shards rest ih =>
    simp only [process_type, dss_go]
    rw [← msm_shards_eq_dss_shards, msm_shards_idem, ih]

theorem dss_go_append (myID : NodeId) (v1 v2 : List (List SubViewL))
    (id offset : Nat) :
    dss_go myID (v1 ++ v2) id offset
      = ((dss_go myID v1 id offset).1
            ++ (dss_go myID v2 (id + v1.length) (dss_go myID v1 id offset).2.1).1,
         (dss_go myID v2 (id + v1.length) (dss_go myID v1 id offset).2.1).2.1,
         (dss_go myID v1 id offset).2.2
            ++ (dss_go myID v2 (id + v1.length) (dss_go myID v1 id offset).2.1).2.2) := by
  induction v1 generalizing id offset with
  | nil => simp [dss_go]
  | cons shards rest ih =>
    simp only [List.cons_append, dss_go, List.length_cons, List.append_eq]
    rw [ih]
    have harith : id + 1 + rest.length = id + (rest.length + 1) := by omega
    rw [harith]
    simp [List.append_assoc]

/-- The invariant carried through `msm_go`: re-deriving from the
accumulated shard views reproduces the accumulated offset and settings. -/
theorem msm_go_derive (myID : NodeId)
    (f : Nat → Int → Option (List (List SubViewL) × Int)) (init_rank : Int)
    (ts : List Nat) (nur : Int) (offset : Nat) (views : List (List SubViewL))
    (ids : List (List Nat)) (settings : List (Nat × SubgroupSettingsL))
    (hinv : dss_go myID views 0 0 = (views, offset, settings))
    (hadq : (msm_go myID f init_rank ts nur offset views ids
        settings).is_adequately_provisioned = true) :
    dss_go myID (msm_go myID f init_rank ts nur offset views ids
        settings).subgroup_shard_views 0 0
      = ((msm_go myID f init_rank ts nur offset views ids
            settings).subgroup_shard_views,
         (msm_go myID f init_rank ts nur offset views ids
            settings).num_received_size,
         (msm_go myID f init_rank ts nur offset views ids
            settings).settings) := by
  induction ts generalizing nur offset views ids settings with
  | nil =>
    simp only [msm_go]
    exact hinv
  | cons t ts ih =>
    simp only [msm_go] at hadq ⊢
    cases hf : f t nur with
    | none =>
      rw [hf] at hadq
      exact absurd hadq (by simp [msm_fail])
    | some p =>
      obtain ⟨layout, nur2⟩ := p
      rw [hf] at hadq
      apply ih
      · rw [dss_go_append, hinv]
        simp only [Nat.zero_add]
        rw [dss_go_process_type]
      · exact hadq

/-- C10: for an adequately provisioned view, the settings map and total
`num_received` size computed by the leader in `make_subgroup_maps` equal
those a follower re-derives with `derive_subgroup_settings` from the
serialized view: every subgroup the local node belongs to gets the same
`shard_num`, `shard_rank`, `members`, `senders`, `sender_rank`,
`num_received_offset` and `mode`, keyed by the same subgroup id, and the
total size follows the same max-shard-senders rule. -/
theorem derive_subgroup_settings_matches_make (myID : NodeId)
    (f : Nat → Int → Option (List (List SubViewL) × Int))
    (numTypes : Nat) (init_rank : Int)
    (hadq : (make_subgroup_maps myID f numTypes
        init_rank).is_adequately_provisioned = true) :
    derive_subgroup_settings myID
        (make_subgroup_maps myID f numTypes init_rank).subgroup_shard_views
      = ((make_subgroup_maps myID f numTypes init_rank).subgroup_shard_views,
         (make_subgroup_maps myID f numTypes init_rank).num_received_size,
         (make_subgroup_maps myID f numTypes init_rank).settings) := by
  unfold derive_subgroup_settings make_subgroup_maps
  unfold make_subgroup_maps at hadq
  exact msm_go_derive myID f init_rank (List.range numTypes) init_rank 0 [] [] []
    rfl hadq

/-- A membership function that always succeeds with a one-shard
one-member layout and one that always throws. -/
def f_wit_ok : Nat → Int → Option (List (List SubViewL) × Int) :=
  fun _ nur => some ([[⟨[5], [true], .ordered, -1⟩]], nur)

def f_wit_fail : Nat → Int → Option (List (List SubViewL) × Int) :=
  fun _ _ => none

/-- Witness for `derive_subgroup_settings_matches_make` at a concrete
one-type, one-subgroup, one-member layout. -/
theorem derive_subgroup_settings_matches_make_witness :
    derive_subgroup_settings 5
        (make_subgroup_maps 5 f_wit_ok 1 0).subgroup_shard_views
      = ((make_subgroup_maps 5 f_wit_ok 1 0).subgroup_shard_views,
         (make_subgroup_maps 5 f_wit_ok 1 0).num_received_size,
         (make_subgroup_maps 5 f_wit_ok 1 0).settings) :=
  derive_subgroup_settings_matches_make 5 f_wit_ok 1 0 rfl

/-- C8: when the membership function throws the provisioning exception,
`make_subgroup_maps` marks the view inadequately provisioned, restores
`next_unassigned_rank`, leaves the shard views, id map and settings
empty (discarding earlier types' layouts), and returns 0; the
epoch-termination step then stalls, re-registering predicates and
waiting for a further committed change instead of installing.
Conversely a run in which the function never throws ends adequately
provisioned. -/
theorem make_subgroup_maps_inadequate (myID : NodeId)
    (f : Nat → Int → Option (List (List SubViewL) × Int))
    (numTypes : Nat) (init_rank : Int) :
    ((make_subgroup_maps myID f numTypes init_rank).is_adequately_provisioned = false →
      make_subgroup_maps myID f numTypes init_rank = msm_fail init_rank
      ∧ terminate_epoch_step myID f numTypes init_rank = .stall)
    ∧ ((∀ t nur, (f t nur).isSome) →
      (make_subgroup_maps myID f numTypes init_rank).is_adequately_provisioned = true)
    ∧ (∀ t ts nur offset views ids settings, f t nur = none →
      msm_go myID f init_rank (t :: ts) nur offset views ids settings
        = msm_fail init_rank) := by
  have hfail : ∀ ts nur offset views ids settings,
      (msm_go myID f init_rank ts nur offset views ids
        settings).is_adequately_provisioned = false →
      msm_go myID f init_rank ts nur offset views ids settings
        = msm_fail init_rank := by
    intro ts
    induction ts with
    | nil =>
      intro nur offset views ids settings h
      simp [msm_go] at h
    | cons t ts ih =>
      intro nur offset views ids settings h
      simp only [msm_go] at h ⊢
      cases hf : f t nur with
      | none => rfl
      | some p =>
        rw [hf] at h
        exact ih p.2 _ _ _ _ h
  refine ⟨?_, ?_, ?_⟩
  · intro h
    refine ⟨hfail _ _ _ _ _ _ h, ?_⟩
    unfold terminate_epoch_step
    rw [if_neg (by rw [h]; exact Bool.false_ne_true)]
  · intro hok
    have : ∀ ts nur offset views ids settings,
        (msm_go myID f init_rank ts nur offset views ids
          settings).is_adequately_provisioned = true := by
      intro ts
      induction ts with
      | nil =>
        intro nur offset views ids settings
        rfl
      | cons t ts ih =>
        intro nur offset views ids settings
        simp only [msm_go]
        cases hf : f t nur with
        | none =>
          have := hok t nur
          rw [hf] at this
          cases this
        | some p => exact ih p.2 _ _ _ _
    exact this _ _ _ _ _ _
  · intro t ts nur offset views ids settings hf
    simp [msm_go, hf]

/-- Witness for `make_subgroup_maps_inadequate`: a membership function
that always throws yields the cleared result and a stall; one that
always succeeds yields an adequately provisioned view. -/
theorem make_subgroup_maps_inadequate_witness :
    (make_subgroup_maps 5 f_wit_fail 1 3 = msm_fail 3
      ∧ terminate_epoch_step 5 f_wit_fail 1 3 = .stall)
    ∧ (make_subgroup_maps 5 f_wit_ok 1 3).is_adequately_provisioned = true
    ∧ msm_go 5 f_wit_fail 3 (0 :: []) 3 0 [] [] [] = msm_fail 3 :=
  ⟨(make_subgroup_maps_inadequate 5 f_wit_fail 1 3).1 rfl,
   (make_subgroup_maps_inadequate 5 f_wit_ok 1 3).2.1 (fun _ _ => rfl),
   (make_subgroup_maps_inadequate 5 f_wit_fail 1 3).2.2 0 [] 3 0 [] [] [] rfl⟩

/-! ## `receive_configuration` (C9) -/

/-- The `JoinResponseCode` values a leader can answer with
(`view_manager.h`; the four constants used in
`receive_configuration`). -/
inductive JoinResponseCode where
  | ok
  | total_restart
  | id_in_use
  | leader_redirect
  deriving Repr, DecidableEq

/-- The externally visible socket actions of `receive_configuration`:
writing the local id, the restart-mode sends of the logged View and
RaggedTrims, the four port writes, and each read of a
(View, DerechoParams[, RaggedTrims]) tuple followed by its
commit flag. -/
inductive CfgAction where
  | write_id
  | send_restart_view
  | send_ragged_trims
  | write_ports
  | read_view_params
  | read_commit (b : Bool)
  deriving Repr, DecidableEq

/-- The view-confirmation loop of `receive_configuration`
(view_manager.cpp:215-262): repeatedly read a (View, Params,
commit-flag) tuple until the flag is true; a read from an exhausted
socket means the leader crashed. -/
def receive_configuration_loop : List Bool → Except String (List CfgAction)
  | [] => .error "Leader crashed before it could send the initial View! Try joining again at the new leader."
  | b :: rest =>
    if b then .ok [.read_view_params, .read_commit true]
    else (receive_configuration_loop rest).map
      (fun acts => .read_view_params :: .read_commit false :: acts)

/-- `ViewManager::receive_configuration` (view_manager.cpp:150-266) as a
function of the leader responses (one per connection attempt) and the
commit flags: exchange ids; `ID_IN_USE` is fatal; `LEADER_REDIRECT`
reconnects and retries; any other code proceeds, with
`is_total_restart` set exactly when the code is `TOTAL_RESTART` (in
which case the logged View and RaggedTrims are sent first); then the
four ports are written and the confirmation loop runs.  Returns
`is_total_restart` and the action trace. -/
def receive_configuration :
    List JoinResponseCode → List Bool → Except String (Bool × List CfgAction)
  | [], _ => .error "Failed to exchange IDs with the leader! Leader has crashed."
  | code :: rest, commits =>
    match code with
    | .id_in_use => .error "Leader rejected join, ID already in use"
    | .leader_redirect =>
      (receive_configuration rest commits).map
        (fun p => (p.1, .write_id :: p.2))
    | c =>
      let is_total_restart := c = .total_restart
      let restartActs : List CfgAction :=
        if is_total_restart then [.send_restart_view, .send_ragged_trims] else []
      (receive_configuration_loop commits).map
        (fun acts => (is_total_restart,
          .write_id :: restartActs ++ [.write_ports] ++ acts))

/-- The claim's reading that exactly three response codes are handled:
every successful run would have to follow the plain `OK` flow, never
performing a restart-mode send. -/
def handles_only_three_codes : Prop :=
  ∀ rs cs b acts, receive_configuration rs cs = .ok (b, acts) →
    CfgAction.send_restart_view ∉ acts

/-- C9, counterexample: `receive_configuration` also handles a fourth
code, `TOTAL_RESTART` (view_manager.cpp:181), on which it sends the
logged View and RaggedTrims before the port exchange — so a successful
run can contain restart actions and the claim's "exactly three" is
false. -/
theorem receive_configuration_cex :
    receive_configuration [.total_restart] [true]
      = .ok (true, [.write_id, .send_restart_view, .send_ragged_trims,
          .write_ports, .read_view_params, .read_commit true])
    ∧ ¬ handles_only_three_codes := by
  constructor
  · rfl
  · intro h
    have h2 := h [JoinResponseCode.total_restart] [true] true
      [CfgAction.write_id, .send_restart_view, .send_ragged_trims,
        .write_ports, .read_view_params, .read_commit true] rfl
    exact h2 (by decide)

/-- C9 (amended): `receive_configuration` distinguishes four response
codes.  `ID_IN_USE` throws a fatal exception; `LEADER_REDIRECT`
reconnects to the supplied address and retries the id exchange; `OK`
proceeds directly to the four port writes; `TOTAL_RESTART` additionally
sends the logged View and RaggedTrims first.  After the port writes the
function reads (View, Params, commit-flag) tuples, consuming every
tuple with a false flag and returning exactly after the first true
flag; if the responses or flags run out, the leader crashed and it
throws. -/
theorem receive_configuration_code_dispatch :
    (∀ rs cs, receive_configuration (JoinResponseCode.id_in_use :: rs) cs
      = .error "Leader rejected join, ID already in use")
    ∧ (∀ rs cs, receive_configuration (JoinResponseCode.leader_redirect :: rs) cs
      = (receive_configuration rs cs).map (fun p => (p.1, .write_id :: p.2)))
    ∧ (∀ rs cs, receive_configuration (JoinResponseCode.ok :: rs) cs
      = (receive_configuration_loop cs).map
          (fun acts => (false, .write_id :: .write_ports :: acts)))
    ∧ (∀ rs cs, receive_configuration (JoinResponseCode.total_restart :: rs) cs
      = (receive_configuration_loop cs).map
          (fun acts => (true, .write_id :: .send_restart_view :: .send_ragged_trims
            :: .write_ports :: acts)))
    ∧ (∀ k rest, receive_configuration_loop (List.replicate k false ++ true :: rest)
      = .ok ((List.replicate k
            ([CfgAction.read_view_params, .read_commit false])).flatten
          ++ [.read_view_params, .read_commit true]))
    ∧ (∀ k, receive_configuration_loop (List.replicate k false)
      = .error "Leader crashed before it could send the initial View! Try joining again at the new leader.") := by
  refine ⟨fun rs cs => rfl, fun rs cs => rfl, fun rs cs => rfl, fun rs cs => rfl, ?_, ?_⟩
  · intro k
    induction k with
    | zero =>
      intro rest
      rfl
    | succ k ih =>
      intro rest
      simp only [List.replicate_succ, List.cons_append, List.append_eq,
        receive_configuration_loop, List.flatten_cons]
      rw [if_neg (by decide : ¬ (false = true))]
      rw [ih rest]
      simp [Except.map]
  · intro k
    induction k with
    | zero => rfl
    | succ k ih =>
      simp only [List.replicate_succ, receive_configuration_loop]
      rw [if_neg (by decide : ¬ (false = true))]
      rw [ih]
      rfl

end Derecho
